import Mathlib

/- Verification of the seed-sampling strategies of
   src/src/dwi/tractography/seeding/basic.cpp (MRtrix tractography
   seeding): Sphere, SeedMask, Random_per_voxel, Grid_per_voxel and
   Rejection.  Images are modelled as integer-indexed rational scalar
   fields; the random source is modelled as explicit streams of draws;
   the unbounded accept/reject loops are modelled with explicit fuel. -/

set_option maxHeartbeats 1600000

/-- Volumetric image: three per-axis extents and a scalar value at every
integer voxel index.  Models the read interface the seeding code uses on
its mask / density images (per-axis size query plus value access). -/
structure Img where
  n0 : ℕ
  n1 : ℕ
  n2 : ℕ
  val : ℤ × ℤ × ℤ → ℚ

/-- Componentwise sum of two points. -/
def addP (a b : ℚ × ℚ × ℚ) : ℚ × ℚ × ℚ :=
  (a.1 + b.1, a.2.1 + b.2.1, a.2.2 + b.2.2)

/-- Componentwise scaling of a point. -/
def smulP (r : ℚ) (a : ℚ × ℚ × ℚ) : ℚ × ℚ × ℚ :=
  (r * a.1, r * a.2.1, r * a.2.2)

/-- Componentwise difference of two points. -/
def subP (a b : ℚ × ℚ × ℚ) : ℚ × ℚ × ℚ :=
  (a.1 - b.1, a.2.1 - b.2.1, a.2.2 - b.2.2)

/-- Squared euclidean norm, as in Eigen squaredNorm. -/
def sqnormQ (a : ℚ × ℚ × ℚ) : ℚ := a.1 ^ 2 + a.2.1 ^ 2 + a.2.2 ^ 2

/-- Squared euclidean distance between two points. -/
def sqDistQ (a b : ℚ × ℚ × ℚ) : ℚ := sqnormQ (subP a b)

/-- View an integer voxel index as a point. -/
def toQ (v : ℤ × ℤ × ℤ) : ℚ × ℚ × ℚ := ((v.1 : ℚ), (v.2.1 : ℚ), (v.2.2 : ℚ))

/-- Componentwise rounding to the nearest voxel index: the voxel that
contains a point given the centre-of-voxel convention used by the
seeding code (sub-voxel offsets lie in the interval [-1/2, 1/2)). -/
def roundP (p : ℚ × ℚ × ℚ) : ℤ × ℤ × ℤ := (round p.1, round p.2.1, round p.2.2)

/-- The voxel index lies inside the image grid. -/
def inGrid (m : Img) (v : ℤ × ℤ × ℤ) : Prop :=
  0 ≤ v.1 ∧ v.1 < (m.n0 : ℤ) ∧ 0 ≤ v.2.1 ∧ v.2.1 < (m.n1 : ℤ) ∧
    0 ≤ v.2.2 ∧ v.2.2 < (m.n2 : ℤ)

instance (m : Img) (v : ℤ × ℤ × ℤ) : Decidable (inGrid m v) := by
  unfold inGrid; infer_instance

/-- Index of the first accepted iteration of an accept/reject loop, if
any occurs within the given fuel, scanning k, k+1, ...  The C++ loops
are unbounded; all theorems below take the fuel as a parameter. -/
def firstHit (p : ℕ → Prop) [DecidablePred p] : ℕ → ℕ → Option ℕ
  | 0, _ => none
  | F + 1, k => if p k then some k else firstHit p F (k + 1)

theorem firstHit_spec (p : ℕ → Prop) [DecidablePred p] :
    ∀ F k K, firstHit p F k = some K →
      k ≤ K ∧ p K ∧ ∀ j, k ≤ j → j < K → ¬ p j := by
  intro F
  induction F with
  | zero => intro k K h; simp [firstHit] at h
  | succ F ih =>
    intro k K h
    by_cases hp : p k
    · simp [firstHit, hp] at h
      subst h
      exact ⟨le_refl _, hp, fun j h1 h2 => absurd h1 (by omega)⟩
    · simp [firstHit, hp] at h
      obtain ⟨h1, h2, h3⟩ := ih (k + 1) K h
      refine ⟨by omega, h2, fun j hj1 hj2 => ?_⟩
      rcases Nat.eq_or_lt_of_le hj1 with rfl | hlt
      · exact hp
      · exact h3 j hlt hj2

theorem firstHit_none (p : ℕ → Prop) [DecidablePred p] (h : ∀ k, ¬ p k) :
    ∀ F k, firstHit p F k = none := by
  intro F
  induction F with
  | zero => intro k; rfl
  | succ F ih => intro k; simp [firstHit, h k, ih]

/- ----------------------------------------------------------------
   Sphere (basic.cpp lines 39-47)
   ---------------------------------------------------------------- -/

/-- One candidate of the Sphere rejection loop: three consecutive
uniform draws in [0,1) mapped componentwise to [-1,1]
(basic.cpp line 43). -/
def sphereCand (u : ℕ → ℚ) (k : ℕ) : ℚ × ℚ × ℚ :=
  (2 * u (3 * k) - 1, 2 * u (3 * k + 1) - 1, 2 * u (3 * k + 2) - 1)

/-- Acceptance condition of the Sphere loop: the loop repeats while the
squared norm exceeds 1 (basic.cpp line 44), so a candidate is accepted
when its squared norm is at most 1. -/
def sphereAccept (u : ℕ → ℚ) (k : ℕ) : Prop := sqnormQ (sphereCand u k) ≤ 1

instance (u : ℕ → ℚ) : DecidablePred (sphereAccept u) := fun k =>
  inferInstanceAs (Decidable (sqnormQ (sphereCand u k) ≤ 1))

/-- Index of the first accepted Sphere candidate within the fuel. -/
def sphereLoopIdx (u : ℕ → ℚ) (F : ℕ) : Option ℕ := firstHit (sphereAccept u) F 0

/-- The point returned once candidate K is accepted:
p = pos + rad * p (basic.cpp line 45). -/
def sphereSeedAt (pos : ℚ × ℚ × ℚ) (rad : ℚ) (u : ℕ → ℚ) (K : ℕ) : ℚ × ℚ × ℚ :=
  addP pos (smulP rad (sphereCand u K))

/-- Sphere get_seed: runs the rejection loop and, when it terminates
within the fuel, returns the accepted candidate scaled and translated.
The C++ function always returns true; in the embedding a some result
corresponds to a true return. -/
def sphereGetSeed (pos : ℚ × ℚ × ℚ) (rad : ℚ) (u : ℕ → ℚ) (F : ℕ) :
    Option (ℚ × ℚ × ℚ) :=
  (sphereLoopIdx u F).map (sphereSeedAt pos rad u)

theorem sphere_dist_eq (pos c : ℚ × ℚ × ℚ) (rad : ℚ) :
    sqDistQ (addP pos (smulP rad c)) pos = rad ^ 2 * sqnormQ c := by
  obtain ⟨p1, p2, p3⟩ := pos
  obtain ⟨c1, c2, c3⟩ := c
  simp only [sqDistQ, addP, smulP, subP, sqnormQ]
  ring

/-- C8: every terminating call of Sphere get_seed returns true; the
candidate is accepted exactly when its squared norm is at most 1 (and
the accepted index is the first such); the returned point is the
accepted unit-ball point scaled by the radius and translated by the
centre, hence its squared distance from the centre is at most the
squared radius. -/
theorem sphere_seed_in_ball (pos : ℚ × ℚ × ℚ) (rad : ℚ) (u : ℕ → ℚ)
    (F K : ℕ) (hK : sphereLoopIdx u F = some K) :
    sphereGetSeed pos rad u F = some (sphereSeedAt pos rad u K)
    ∧ (∀ k, sphereAccept u k ↔ sqnormQ (sphereCand u k) ≤ 1)
    ∧ sqnormQ (sphereCand u K) ≤ 1
    ∧ (∀ j, j < K → ¬ sqnormQ (sphereCand u j) ≤ 1)
    ∧ sphereSeedAt pos rad u K = addP pos (smulP rad (sphereCand u K))
    ∧ sqDistQ (sphereSeedAt pos rad u K) pos ≤ rad ^ 2 := by
  obtain ⟨-, hacc, hmin⟩ := firstHit_spec (sphereAccept u) F 0 K hK
  refine ⟨by rw [sphereGetSeed, hK]; rfl, fun k => Iff.rfl, hacc,
    fun j hj => hmin j (Nat.zero_le j) hj, rfl, ?_⟩
  rw [sphereSeedAt, sphere_dist_eq]
  calc rad ^ 2 * sqnormQ (sphereCand u K) ≤ rad ^ 2 * 1 :=
        mul_le_mul_of_nonneg_left hacc (sq_nonneg rad)
    _ = rad ^ 2 := mul_one _

/-- Witness for C8 at a concrete input: centre 0, radius 1, a constant
stream of draws 1/2 whose first candidate (0,0,0) is accepted at once. -/
theorem sphere_seed_in_ball_witness :
    sphereGetSeed (0, 0, 0) 1 (fun _ => 1 / 2) 1
        = some (sphereSeedAt (0, 0, 0) 1 (fun _ => 1 / 2) 0)
    ∧ (∀ k, sphereAccept (fun _ => 1 / 2) k
        ↔ sqnormQ (sphereCand (fun _ => 1 / 2) k) ≤ 1)
    ∧ sqnormQ (sphereCand (fun _ => 1 / 2) 0) ≤ 1
    ∧ (∀ j, j < 0 → ¬ sqnormQ (sphereCand (fun _ => 1 / 2) j) ≤ 1)
    ∧ sphereSeedAt (0, 0, 0) 1 (fun _ => 1 / 2) 0
        = addP (0, 0, 0) (smulP 1 (sphereCand (fun _ => 1 / 2) 0))
    ∧ sqDistQ (sphereSeedAt (0, 0, 0) 1 (fun _ => 1 / 2) 0) (0, 0, 0) ≤ 1 ^ 2 :=
  sphere_seed_in_ball (0, 0, 0) 1 (fun _ => 1 / 2) 1 0
    (by norm_num [sphereLoopIdx, firstHit, sphereAccept, sphereCand, sqnormQ])

/- ----------------------------------------------------------------
   Raster-order positional encoding of the traversal cursor
   ---------------------------------------------------------------- -/

/-- Total number of voxels of the grid. -/
def gridCount (m : Img) : ℕ := m.n0 * m.n1 * m.n2

/-- Decode a linear raster position (axis 2 varying fastest) into a
voxel index triple. -/
def dec3 (n1 n2 : ℕ) (t : ℕ) : ℤ × ℤ × ℤ :=
  ((t / (n1 * n2) : ℕ), ((t / n2 % n1 : ℕ) : ℤ), ((t % n2 : ℕ) : ℤ))

/-- The cursor triple c sits at linear raster position t of a grid with
extents n0, n1, n2, where axis 2 is the least significant digit. -/
def isCur3 (n0 n1 n2 t : ℕ) (c : ℤ × ℤ × ℤ) : Prop :=
  ∃ a b k : ℕ, c = ((a : ℤ), (b : ℤ), (k : ℤ)) ∧ a < n0 ∧ b < n1 ∧ k < n2 ∧
    t = (a * n1 + b) * n2 + k

theorem mul_add_inj {x y c d n : ℕ} (hc : c < n) (hd : d < n)
    (h : x * n + c = y * n + d) : x = y ∧ c = d := by
  have key : ∀ u v e : ℕ, e < n → u < v → ∀ f, u * n + e < v * n + f := by
    intro u v e he huv f
    calc u * n + e < u * n + n := by omega
      _ = (u + 1) * n := by ring
      _ ≤ v * n := Nat.mul_le_mul (Nat.succ_le_of_lt huv) (le_refl n)
      _ ≤ v * n + f := Nat.le_add_right _ _
  have hxy : x = y := by
    rcases Nat.lt_trichotomy x y with hlt | heq | hgt
    · exact absurd h (Nat.ne_of_lt (key x y c hc hlt d))
    · exact heq
    · exact absurd h.symm (Nat.ne_of_lt (key y x d hd hgt c))
  subst hxy
  omega

theorem isCur3_dec3 {n0 n1 n2 : ℕ} (h1 : 0 < n1) (h2 : 0 < n2) {t : ℕ}
    (ht : t < n0 * n1 * n2) : isCur3 n0 n1 n2 t (dec3 n1 n2 t) := by
  refine ⟨t / (n1 * n2), t / n2 % n1, t % n2, rfl, ?_, Nat.mod_lt _ h1,
    Nat.mod_lt _ h2, ?_⟩
  · have hpos : 0 < n1 * n2 := Nat.mul_pos h1 h2
    rw [Nat.div_lt_iff_lt_mul hpos]
    calc t < n0 * n1 * n2 := ht
      _ = n0 * (n1 * n2) := by ring
  · have e1 : t / (n1 * n2) = t / n2 / n1 := by
      rw [Nat.div_div_eq_div_mul, Nat.mul_comm n2 n1]
    rw [e1]
    have e2 := Nat.div_add_mod (t / n2) n1
    have e3 := Nat.div_add_mod t n2
    calc t = n2 * (t / n2) + t % n2 := e3.symm
      _ = n2 * (n1 * (t / n2 / n1) + t / n2 % n1) + t % n2 := by rw [e2]
      _ = (t / n2 / n1 * n1 + t / n2 % n1) * n2 + t % n2 := by ring

theorem isCur3_lt {n0 n1 n2 t : ℕ} {c : ℤ × ℤ × ℤ}
    (h : isCur3 n0 n1 n2 t c) : t < n0 * n1 * n2 := by
  obtain ⟨a, b, k, -, ha, hb, hk, rfl⟩ := h
  have h1 : a * n1 + b + 1 ≤ n0 * n1 := by
    calc a * n1 + b + 1 ≤ a * n1 + n1 := by omega
      _ = (a + 1) * n1 := by ring
      _ ≤ n0 * n1 := Nat.mul_le_mul (Nat.succ_le_of_lt ha) (le_refl n1)
  calc (a * n1 + b) * n2 + k < (a * n1 + b) * n2 + n2 := by omega
    _ = (a * n1 + b + 1) * n2 := by ring
    _ ≤ n0 * n1 * n2 := Nat.mul_le_mul h1 (le_refl n2)

theorem isCur3_unique {n0 n1 n2 t : ℕ} {c d : ℤ × ℤ × ℤ}
    (h : isCur3 n0 n1 n2 t c) (h2 : isCur3 n0 n1 n2 t d) : c = d := by
  obtain ⟨a, b, k, rfl, ha, hb, hk, he⟩ := h
  obtain ⟨a2, b2, k2, rfl, ha2, hb2, hk2, he2⟩ := h2
  obtain ⟨hab, hkk⟩ := mul_add_inj hk hk2 (he.symm.trans he2)
  obtain ⟨haa, hbb⟩ := mul_add_inj hb hb2 hab
  subst haa; subst hbb; subst hkk
  rfl

theorem isCur3_eq_dec3 {n0 n1 n2 t : ℕ} {c : ℤ × ℤ × ℤ} (h1 : 0 < n1)
    (h2 : 0 < n2) (h : isCur3 n0 n1 n2 t c) : c = dec3 n1 n2 t :=
  isCur3_unique h (isCur3_dec3 h1 h2 (isCur3_lt h))

/-- Raster rank of a voxel index, with axis 2 the fastest-varying
(least significant) digit. -/
def rasterRank (m : Img) (v : ℤ × ℤ × ℤ) : ℤ :=
  (v.1 * m.n1 + v.2.1) * m.n2 + v.2.2

theorem rasterRank_dec3 (m : Img) (h1 : 0 < m.n1) (h2 : 0 < m.n2) {t : ℕ}
    (ht : t < gridCount m) : rasterRank m (dec3 m.n1 m.n2 t) = t := by
  obtain ⟨a, b, k, he, ha, hb, hk, henc⟩ :=
    @isCur3_dec3 m.n0 _ _ h1 h2 _ ht
  rw [he, rasterRank]
  push_cast
  exact_mod_cast henc.symm

theorem dec3_inGrid (m : Img) (h1 : 0 < m.n1) (h2 : 0 < m.n2) {t : ℕ}
    (ht : t < gridCount m) : inGrid m (dec3 m.n1 m.n2 t) := by
  obtain ⟨a, b, k, he, ha, hb, hk, -⟩ := @isCur3_dec3 m.n0 _ _ h1 h2 _ ht
  rw [he]
  exact ⟨Int.ofNat_nonneg a, by show (a : ℤ) < (m.n0 : ℤ); exact_mod_cast ha,
    Int.ofNat_nonneg b, by show (b : ℤ) < (m.n1 : ℤ); exact_mod_cast hb,
    Int.ofNat_nonneg k, by show (k : ℤ) < (m.n2 : ℤ); exact_mod_cast hk⟩

/-- Linear raster position of an in-grid voxel index. -/
def encV (m : Img) (v : ℤ × ℤ × ℤ) : ℕ :=
  (v.1.toNat * m.n1 + v.2.1.toNat) * m.n2 + v.2.2.toNat

theorem isCur3_encV {m : Img} {v : ℤ × ℤ × ℤ} (h : inGrid m v) :
    isCur3 m.n0 m.n1 m.n2 (encV m v) v := by
  obtain ⟨h0a, h0b, h1a, h1b, h2a, h2b⟩ := h
  refine ⟨v.1.toNat, v.2.1.toNat, v.2.2.toNat, ?_, by omega, by omega, by omega, rfl⟩
  rw [Int.toNat_of_nonneg h0a, Int.toNat_of_nonneg h1a, Int.toNat_of_nonneg h2a]

theorem dec3_encV {m : Img} {v : ℤ × ℤ × ℤ} (h1 : 0 < m.n1) (h2 : 0 < m.n2)
    (h : inGrid m v) :
    encV m v < gridCount m ∧ dec3 m.n1 m.n2 (encV m v) = v :=
  ⟨isCur3_lt (isCur3_encV h),
    (isCur3_eq_dec3 h1 h2 (isCur3_encV h)).symm⟩

/- ----------------------------------------------------------------
   Shared traversal cursor of Random_per_voxel and Grid_per_voxel
   (basic.cpp lines 83-90 and 127-134)
   ---------------------------------------------------------------- -/

/-- One increment of the raster traversal cursor: the body of the
do-while advance loops of Random_per_voxel::get_seed and
Grid_per_voxel::get_seed.  Index 2 is incremented; on reaching size 2 it
wraps to 0 and index 1 is incremented; on reaching size 1 that wraps to
0 and index 0 is incremented. -/
def bump (m : Img) (c : ℤ × ℤ × ℤ) : ℤ × ℤ × ℤ :=
  if c.2.2 + 1 = (m.n2 : ℤ) then
    if c.2.1 + 1 = (m.n1 : ℤ) then (c.1 + 1, 0, 0)
    else (c.1, c.2.1 + 1, 0)
  else (c.1, c.2.1, c.2.2 + 1)

theorem bump_isCur {m : Img} {t : ℕ} {c : ℤ × ℤ × ℤ}
    (h : isCur3 m.n0 m.n1 m.n2 t c) (ht : t + 1 < gridCount m) :
    isCur3 m.n0 m.n1 m.n2 (t + 1) (bump m c) := by
  obtain ⟨a, b, k, rfl, ha, hb, hk, henc⟩ := h
  simp only [gridCount] at ht
  by_cases hk2 : k + 1 = m.n2
  · by_cases hb2 : b + 1 = m.n1
    · have hc1 : ((a : ℤ), (b : ℤ), (k : ℤ)).2.2 + 1 = (m.n2 : ℤ) := by
        show (k : ℤ) + 1 = (m.n2 : ℤ)
        omega
      have hc2 : ((a : ℤ), (b : ℤ), (k : ℤ)).2.1 + 1 = (m.n1 : ℤ) := by
        show (b : ℤ) + 1 = (m.n1 : ℤ)
        omega
      have hbv : bump m ((a : ℤ), (b : ℤ), (k : ℤ)) = ((a : ℤ) + 1, 0, 0) := by
        unfold bump
        rw [if_pos hc1, if_pos hc2]
      rw [hbv]
      have henc2 : t + 1 = ((a + 1) * m.n1 + 0) * m.n2 + 0 := by
        rw [henc, ← hb2, ← hk2]
        ring
      refine ⟨a + 1, 0, 0, by push_cast; rfl, ?_, by omega, by omega, henc2⟩
      have hlt : (a + 1) * (m.n1 * m.n2) < m.n0 * (m.n1 * m.n2) := by
        have e : t + 1 = (a + 1) * (m.n1 * m.n2) := by
          rw [henc, ← hb2, ← hk2]
          ring
        calc (a + 1) * (m.n1 * m.n2) = t + 1 := e.symm
          _ < m.n0 * m.n1 * m.n2 := ht
          _ = m.n0 * (m.n1 * m.n2) := by ring
      exact lt_of_mul_lt_mul_right hlt (Nat.zero_le _)
    · have hc1 : ((a : ℤ), (b : ℤ), (k : ℤ)).2.2 + 1 = (m.n2 : ℤ) := by
        show (k : ℤ) + 1 = (m.n2 : ℤ)
        omega
      have hc2 : ¬ (((a : ℤ), (b : ℤ), (k : ℤ)).2.1 + 1 = (m.n1 : ℤ)) := by
        show ¬ ((b : ℤ) + 1 = (m.n1 : ℤ))
        omega
      have hbv : bump m ((a : ℤ), (b : ℤ), (k : ℤ)) = ((a : ℤ), (b : ℤ) + 1, 0) := by
        unfold bump
        rw [if_pos hc1, if_neg hc2]
      rw [hbv]
      have henc2 : t + 1 = (a * m.n1 + (b + 1)) * m.n2 + 0 := by
        rw [henc, ← hk2]
        ring
      exact ⟨a, b + 1, 0, by push_cast; rfl, ha, by omega, by omega, henc2⟩
  · have hc1 : ¬ (((a : ℤ), (b : ℤ), (k : ℤ)).2.2 + 1 = (m.n2 : ℤ)) := by
      show ¬ ((k : ℤ) + 1 = (m.n2 : ℤ))
      omega
    have hbv : bump m ((a : ℤ), (b : ℤ), (k : ℤ)) = ((a : ℤ), (b : ℤ), (k : ℤ) + 1) := by
      unfold bump
      rw [if_neg hc1]
    rw [hbv]
    refine ⟨a, b, k + 1, by push_cast; rfl, ha, hb, by omega, by omega⟩

theorem bump_exhaust {m : Img} {t : ℕ} {c : ℤ × ℤ × ℤ}
    (h : isCur3 m.n0 m.n1 m.n2 t c) (ht : t + 1 = gridCount m) :
    bump m c = ((m.n0 : ℤ), 0, 0) := by
  obtain ⟨a, b, k, rfl, ha, hb, hk, henc⟩ := h
  simp only [gridCount] at ht
  have hk2 : k + 1 = m.n2 := by
    by_contra hne
    have hlt := isCur3_lt
      (show isCur3 m.n0 m.n1 m.n2 (t + 1) ((a : ℤ), (b : ℤ), ((k + 1 : ℕ) : ℤ))
        from ⟨a, b, k + 1, rfl, ha, hb, by omega, by omega⟩)
    omega
  have hb2 : b + 1 = m.n1 := by
    by_contra hne
    have henc2 : t + 1 = (a * m.n1 + (b + 1)) * m.n2 + 0 := by
      rw [henc, ← hk2]
      ring
    have hlt := isCur3_lt
      (show isCur3 m.n0 m.n1 m.n2 (t + 1) ((a : ℤ), ((b + 1 : ℕ) : ℤ), ((0 : ℕ) : ℤ))
        from ⟨a, b + 1, 0, rfl, ha, by omega, by omega, henc2⟩)
    omega
  have ha2 : a + 1 = m.n0 := by
    have henc3 : t + 1 = (a + 1) * (m.n1 * m.n2) := by
      rw [henc, ← hk2, ← hb2]
      ring
    have he : (a + 1) * (m.n1 * m.n2) = m.n0 * (m.n1 * m.n2) := by
      calc (a + 1) * (m.n1 * m.n2) = t + 1 := henc3.symm
        _ = m.n0 * m.n1 * m.n2 := ht
        _ = m.n0 * (m.n1 * m.n2) := by ring
    exact Nat.eq_of_mul_eq_mul_right (Nat.mul_pos (by omega) (by omega)) he
  have hc1 : ((a : ℤ), (b : ℤ), (k : ℤ)).2.2 + 1 = (m.n2 : ℤ) := by
    show (k : ℤ) + 1 = (m.n2 : ℤ)
    omega
  have hc2 : ((a : ℤ), (b : ℤ), (k : ℤ)).2.1 + 1 = (m.n1 : ℤ) := by
    show (b : ℤ) + 1 = (m.n1 : ℤ)
    omega
  have hbv : bump m ((a : ℤ), (b : ℤ), (k : ℤ)) = ((a : ℤ) + 1, 0, 0) := by
    unfold bump
    rw [if_pos hc1, if_pos hc2]
  rw [hbv]
  have hcast : ((a : ℤ) + 1 = (m.n0 : ℤ)) := by omega
  rw [hcast]


/-- The cursor is about to examine raster position t: either it is the
initial pre-start cursor (0,0,-1) with t = 0, or it sits at position
t - 1.  These are exactly the cursor states from which the advance loop
performs its next bump. -/
def preCur (m : Img) (t : ℕ) (c : ℤ × ℤ × ℤ) : Prop :=
  (t = 0 ∧ c = (0, 0, -1)) ∨ ∃ t0, t = t0 + 1 ∧ isCur3 m.n0 m.n1 m.n2 t0 c

theorem bump_pre {m : Img} (h0 : 0 < m.n0) (h1 : 0 < m.n1) (h2 : 0 < m.n2)
    {t : ℕ} {c : ℤ × ℤ × ℤ} (h : preCur m t c) (ht : t < gridCount m) :
    isCur3 m.n0 m.n1 m.n2 t (bump m c) := by
  rcases h with ⟨rfl, rfl⟩ | ⟨t0, rfl, hcur⟩
  · have hz1 : ¬ (((0 : ℤ), (0 : ℤ), (-1 : ℤ)).2.2 + 1 = (m.n2 : ℤ)) := by
      show ¬ ((-1 : ℤ) + 1 = (m.n2 : ℤ))
      omega
    have hbv : bump m (0, 0, -1) = (0, 0, 0) := by
      unfold bump
      rw [if_neg hz1]
      decide
    rw [hbv]
    exact ⟨0, 0, 0, by norm_num, h0, h1, h2, by ring⟩
  · exact bump_isCur hcur ht

theorem bump_pre_exhaust {m : Img} (h0 : 0 < m.n0) (h1 : 0 < m.n1)
    (h2 : 0 < m.n2) {t : ℕ} {c : ℤ × ℤ × ℤ} (h : preCur m t c)
    (ht : t = gridCount m) : bump m c = ((m.n0 : ℤ), 0, 0) := by
  rcases h with ⟨rfl, rfl⟩ | ⟨t0, rfl, hcur⟩
  · exfalso
    have hpos : 0 < gridCount m := Nat.mul_pos (Nat.mul_pos h0 h1) h2
    omega
  · exact bump_exhaust hcur ht


/-- The do-while advance loop of Random_per_voxel::get_seed and
Grid_per_voxel::get_seed: bump at least once, then keep bumping while
the cursor has not left the grid on axis 0 and the mask value at the
cursor is zero.  The C++ loop is unbounded; the fuel argument bounds
the recursion and every use below supplies more fuel than the loop can
consume, so the embedding agrees with the loop. -/
def advanceFrom (m : Img) : ℕ → (ℤ × ℤ × ℤ) → ℤ × ℤ × ℤ
  | 0, c => bump m c
  | F + 1, c =>
    let c2 := bump m c
    if c2.1 = (m.n0 : ℤ) ∨ m.val c2 ≠ 0 then c2 else advanceFrom m F c2

theorem advanceFrom_spec (m : Img) (h0 : 0 < m.n0) (h1 : 0 < m.n1)
    (h2 : 0 < m.n2) :
    ∀ F t c, preCur m t c → t ≤ gridCount m → gridCount m - t ≤ F →
    ∃ ts, t ≤ ts ∧ ts ≤ gridCount m ∧
      (∀ u, t ≤ u → u < ts → m.val (dec3 m.n1 m.n2 u) = 0) ∧
      ((ts = gridCount m ∧ advanceFrom m F c = ((m.n0 : ℤ), 0, 0)) ∨
       (ts < gridCount m ∧ m.val (dec3 m.n1 m.n2 ts) ≠ 0 ∧
         advanceFrom m F c = dec3 m.n1 m.n2 ts)) := by
  intro F
  induction F with
  | zero =>
    intro t c hpre htN hfuel
    have htEq : t = gridCount m := by omega
    refine ⟨gridCount m, by omega, le_refl _,
      fun u hu1 hu2 => absurd hu1 (by omega), Or.inl ⟨rfl, ?_⟩⟩
    show bump m c = _
    exact bump_pre_exhaust h0 h1 h2 hpre htEq
  | succ F ih =>
    intro t c hpre htN hfuel
    by_cases htlt : t < gridCount m
    · have hcur : isCur3 m.n0 m.n1 m.n2 t (bump m c) := bump_pre h0 h1 h2 hpre htlt
      have hbc : bump m c = dec3 m.n1 m.n2 t := isCur3_eq_dec3 h1 h2 hcur
      by_cases hval : m.val (dec3 m.n1 m.n2 t) = 0
      · have hfst : (bump m c).1 ≠ (m.n0 : ℤ) := by
          obtain ⟨a, b, k, he, ha, -, -, -⟩ := hcur
          rw [he]
          show (a : ℤ) ≠ (m.n0 : ℤ)
          omega
        have hstep : advanceFrom m (F + 1) c = advanceFrom m F (bump m c) := by
          simp only [advanceFrom]
          rw [if_neg]
          intro hor
          rcases hor with horl | horr
          · exact hfst horl
          · exact horr (by rw [hbc]; exact hval)
        obtain ⟨ts, hts1, hts2, hZ, hres⟩ :=
          ih (t + 1) (bump m c) (Or.inr ⟨t, rfl, hcur⟩) (by omega) (by omega)
        refine ⟨ts, by omega, hts2, fun u hu1 hu2 => ?_, ?_⟩
        · rcases Nat.eq_or_lt_of_le hu1 with rfl | hlt2
          · exact hval
          · exact hZ u hlt2 hu2
        · rw [hstep]
          exact hres
      · have hstep : advanceFrom m (F + 1) c = bump m c := by
          simp only [advanceFrom]
          rw [if_pos]
          right
          rw [hbc]
          exact hval
        exact ⟨t, le_refl _, by omega, fun u hu1 hu2 => absurd hu1 (by omega),
          Or.inr ⟨htlt, hval, by rw [hstep, hbc]⟩⟩
    · have htEq : t = gridCount m := by omega
      have hb : bump m c = ((m.n0 : ℤ), 0, 0) :=
        bump_pre_exhaust h0 h1 h2 hpre htEq
      have hstep : advanceFrom m (F + 1) c = bump m c := by
        simp only [advanceFrom]
        rw [if_pos]
        left
        rw [hb]
      exact ⟨gridCount m, by omega, le_refl _,
        fun u hu1 hu2 => absurd hu1 (by omega), Or.inl ⟨rfl, by rw [hstep, hb]⟩⟩

/- ----------------------------------------------------------------
   Random_per_voxel (basic.cpp lines 72-103)
   ---------------------------------------------------------------- -/

/-- Mutable state of a Random_per_voxel instance: the exhaustion flag,
the per-voxel seed counter inc, and the traversal cursor. -/
structure RPVState where
  expired : Bool
  inc : ℕ
  cur : ℤ × ℤ × ℤ

/-- Fuel with which the embedded advance loop is run; it exceeds the
number of bumps the do-while loop can make from any reachable cursor. -/
def advanceFuel (m : Img) : ℕ := gridCount m + 1

/-- One call of Random_per_voxel::get_seed (basic.cpp lines 72-103),
returning the voxel from which the seed is drawn (the C++ code then adds
a random sub-voxel offset and applies the coordinate transform) together
with the successor state; none models a false return.  If the flag is
set it returns false at once; if the cursor is before the first voxel or
the incremented counter reaches num, the counter resets and the cursor
advances to the next voxel with non-zero mask value, setting the flag
and returning false when the advance leaves the grid. -/
def rpvStep (m : Img) (num : ℕ) (s : RPVState) : Option (ℤ × ℤ × ℤ) × RPVState :=
  if s.expired then (none, s)
  else if s.cur.2.2 < 0 ∨ s.inc + 1 = num then
    let c := advanceFrom m (advanceFuel m) s.cur
    if c.1 = (m.n0 : ℤ) then (none, ⟨true, 0, c⟩)
    else (some c, ⟨false, 0, c⟩)
  else (some s.cur, ⟨false, s.inc + 1, s.cur⟩)

/-- Repeatedly call get_seed, collecting the seed voxels until the first
false return (or until the fuel runs out; all theorems supply enough
fuel to reach exhaustion). -/
def rpvRun (m : Img) (num : ℕ) : ℕ → RPVState → List (ℤ × ℤ × ℤ)
  | 0, _ => []
  | F + 1, s =>
    match rpvStep m num s with
    | (none, _) => []
    | (some v, s2) => v :: rpvRun m num F s2

/-- Modelled from the spec: the Random_per_voxel constructor is declared
in basic.h, which is not part of the sources; per section 4.3 of the
spec the strategy starts unexhausted with its counter clear and the
traversal cursor before the first voxel, which the get_seed test
index(2) < 0 on line 80 of basic.cpp encodes as index (0,0,-1). -/
def rpvInit : RPVState := ⟨false, 0, (0, 0, -1)⟩

theorem rpvStep_expired {m : Img} {num : ℕ} {s : RPVState}
    (h : s.expired = true) : rpvStep m num s = (none, s) := by
  simp [rpvStep, h]

theorem rpvStep_emit (m : Img) (num j : ℕ) (c : ℤ × ℤ × ℤ)
    (hc : ¬ (c.2.2 < 0 ∨ j + 1 = num)) :
    rpvStep m num ⟨false, j, c⟩ = (some c, ⟨false, j + 1, c⟩) := by
  simp [rpvStep, hc]

theorem rpvStep_adv_exhaust (m : Img) (num j : ℕ) (c : ℤ × ℤ × ℤ)
    (hc : c.2.2 < 0 ∨ j + 1 = num)
    (hA : advanceFrom m (advanceFuel m) c = ((m.n0 : ℤ), 0, 0)) :
    rpvStep m num ⟨false, j, c⟩ = (none, ⟨true, 0, ((m.n0 : ℤ), 0, 0)⟩) := by
  simp [rpvStep, hc, hA]

theorem rpvStep_adv_emit (m : Img) (num j : ℕ) (c v : ℤ × ℤ × ℤ)
    (hc : c.2.2 < 0 ∨ j + 1 = num)
    (hA : advanceFrom m (advanceFuel m) c = v) (hv : ¬ v.1 = (m.n0 : ℤ)) :
    rpvStep m num ⟨false, j, c⟩ = (some v, ⟨false, 0, v⟩) := by
  simp [rpvStep, hc, hA, hv]

theorem rpvRun_succ_none {m : Img} {num F : ℕ} {s s2 : RPVState}
    (hstep : rpvStep m num s = (none, s2)) : rpvRun m num (F + 1) s = [] := by
  simp [rpvRun, hstep]

theorem rpvRun_succ_some {m : Img} {num F : ℕ} {s s2 : RPVState}
    {v : ℤ × ℤ × ℤ} (hstep : rpvStep m num s = (some v, s2)) :
    rpvRun m num (F + 1) s = v :: rpvRun m num F s2 := by
  simp [rpvRun, hstep]

theorem dec3_z_nonneg (n1 n2 t : ℕ) : ¬ ((dec3 n1 n2 t).2.2 < 0) := by
  unfold dec3
  show ¬ (((t % n2 : ℕ) : ℤ) < 0)
  omega

theorem dec3_fst_ne (m : Img) (h1 : 0 < m.n1) (h2 : 0 < m.n2) {ts : ℕ}
    (hts : ts < gridCount m) : ¬ ((dec3 m.n1 m.n2 ts).1 = (m.n0 : ℤ)) := by
  obtain ⟨a, b, k, he, ha, -, -, -⟩ := @isCur3_dec3 m.n0 _ _ h1 h2 _ hts
  rw [he]
  show ¬ ((a : ℤ) = (m.n0 : ℤ))
  omega

/-- Seed voxels the Random_per_voxel run emits from raster position t
onwards: num copies of every voxel at position at least t with non-zero
mask value, in raster order. -/
def nzSuffix (m : Img) (num t : ℕ) : List (ℤ × ℤ × ℤ) :=
  ((List.range' t (gridCount m - t)).filter
      (fun u => decide (m.val (dec3 m.n1 m.n2 u) ≠ 0))).flatMap
    (fun u => List.replicate num (dec3 m.n1 m.n2 u))

theorem nzSuffix_nil (m : Img) (num t : ℕ)
    (hz : ∀ u, t ≤ u → u < gridCount m → m.val (dec3 m.n1 m.n2 u) = 0) :
    nzSuffix m num t = [] := by
  unfold nzSuffix
  have hfil : (List.range' t (gridCount m - t)).filter
      (fun u => decide (m.val (dec3 m.n1 m.n2 u) ≠ 0)) = [] := by
    rw [List.filter_eq_nil_iff]
    intro u hu
    rw [List.mem_range'_1] at hu
    have hval := hz u hu.1 (by omega)
    simp [hval]
  rw [hfil]
  rfl

theorem nzSuffix_split (m : Img) (num t ts : ℕ) (hle : t ≤ ts)
    (hts : ts < gridCount m)
    (hz : ∀ u, t ≤ u → u < ts → m.val (dec3 m.n1 m.n2 u) = 0)
    (hnz : m.val (dec3 m.n1 m.n2 ts) ≠ 0) :
    nzSuffix m num t
      = List.replicate num (dec3 m.n1 m.n2 ts) ++ nzSuffix m num (ts + 1) := by
  unfold nzSuffix
  have e1 : gridCount m - t = (gridCount m - ts) + (ts - t) := by omega
  have e2 : t + 1 * (ts - t) = ts := by omega
  have hsplit : List.range' t (gridCount m - t)
      = List.range' t (ts - t) ++ List.range' ts (gridCount m - ts) := by
    rw [e1, ← List.range'_append, e2]
  rw [hsplit, List.filter_append]
  have hfirst : (List.range' t (ts - t)).filter
      (fun u => decide (m.val (dec3 m.n1 m.n2 u) ≠ 0)) = [] := by
    rw [List.filter_eq_nil_iff]
    intro u hu
    rw [List.mem_range'_1] at hu
    have hval := hz u hu.1 (by omega)
    simp [hval]
  have hsecond : List.range' ts (gridCount m - ts)
      = ts :: List.range' (ts + 1) (gridCount m - (ts + 1)) := by
    have e : gridCount m - ts = (gridCount m - (ts + 1)) + 1 := by omega
    rw [e, List.range'_succ]
  rw [hfirst, hsecond, List.nil_append]
  rw [List.filter_cons_of_pos (by simp [hnz])]
  rw [List.flatMap_cons]

theorem rpvRun_mid (m : Img) (num : ℕ) (h0 : 0 < m.n0) (h1 : 0 < m.n1)
    (h2 : 0 < m.n2) :
    ∀ F t j, t < gridCount m → m.val (dec3 m.n1 m.n2 t) ≠ 0 → j + 1 ≤ num →
      (num - j) + num * (gridCount m - t) ≤ F →
      rpvRun m num F ⟨false, j, dec3 m.n1 m.n2 t⟩
        = List.replicate (num - 1 - j) (dec3 m.n1 m.n2 t)
            ++ nzSuffix m num (t + 1) := by
  intro F
  induction F with
  | zero =>
    intro t j ht hnz hj hfuel
    exfalso
    omega
  | succ F ih =>
    intro t j ht hnz hj hfuel
    by_cases hjn : j + 1 = num
    · obtain ⟨ts, hts1, hts2, hZ, hres⟩ :=
        advanceFrom_spec m h0 h1 h2 (advanceFuel m) (t + 1) (dec3 m.n1 m.n2 t)
          (Or.inr ⟨t, rfl, isCur3_dec3 h1 h2 ht⟩) (by omega)
          (by unfold advanceFuel; omega)
      rcases hres with ⟨hEq, hAdv⟩ | ⟨hLt, hNz, hAdv⟩
      · have hstep := rpvStep_adv_exhaust m num j (dec3 m.n1 m.n2 t)
          (Or.inr hjn) hAdv
        rw [rpvRun_succ_none hstep]
        have hrep : num - 1 - j = 0 := by omega
        rw [hrep, List.replicate_zero, List.nil_append]
        exact (nzSuffix_nil m num (t + 1) (fun u hu1 hu2 => hZ u hu1 (by omega))).symm
      · have hstep := rpvStep_adv_emit m num j (dec3 m.n1 m.n2 t)
          (dec3 m.n1 m.n2 ts) (Or.inr hjn) hAdv (dec3_fst_ne m h1 h2 hLt)
        rw [rpvRun_succ_some hstep]
        have hfuel2 : (num - 0) + num * (gridCount m - ts) ≤ F := by
          have e : gridCount m - t = (gridCount m - ts) + (ts - t) := by omega
          rw [e, Nat.mul_add] at hfuel
          have hge : num ≤ num * (ts - t) :=
            Nat.le_mul_of_pos_right num (by omega)
          omega
        rw [ih ts 0 hLt hNz (by omega) hfuel2]
        have hrep : num - 1 - j = 0 := by omega
        rw [hrep, List.replicate_zero, List.nil_append]
        rw [nzSuffix_split m num (t + 1) ts hts1 hLt hZ hNz]
        rw [show num = (num - 1) + 1 by omega]
        rw [List.replicate_succ, List.cons_append]
        simp
    · have hstep := rpvStep_emit m num j (dec3 m.n1 m.n2 t)
        (by
          push_neg
          exact ⟨by have := dec3_z_nonneg m.n1 m.n2 t; omega, hjn⟩)
      rw [rpvRun_succ_some hstep]
      rw [ih t (j + 1) ht hnz (by omega) (by omega)]
      rw [show num - 1 - j = (num - 1 - (j + 1)) + 1 by omega]
      rw [List.replicate_succ, List.cons_append]

theorem rpvRun_full (m : Img) (num : ℕ) (h0 : 0 < m.n0) (h1 : 0 < m.n1)
    (h2 : 0 < m.n2) (hnum : 1 ≤ num) :
    ∀ F, 1 + num + num * gridCount m ≤ F →
      rpvRun m num F rpvInit = nzSuffix m num 0 := by
  intro F hF
  obtain ⟨F2, rfl⟩ : ∃ F2, F = F2 + 1 := ⟨F - 1, by omega⟩
  obtain ⟨ts, hts1, hts2, hZ, hres⟩ :=
    advanceFrom_spec m h0 h1 h2 (advanceFuel m) 0 (0, 0, -1)
      (Or.inl ⟨rfl, rfl⟩) (by omega) (by unfold advanceFuel; omega)
  show rpvRun m num (F2 + 1) ⟨false, 0, (0, 0, -1)⟩ = _
  rcases hres with ⟨hEq, hAdv⟩ | ⟨hLt, hNz, hAdv⟩
  · have hstep := rpvStep_adv_exhaust m num 0 (0, 0, -1)
      (Or.inl (by norm_num)) hAdv
    rw [rpvRun_succ_none hstep]
    exact (nzSuffix_nil m num 0 (fun u hu1 hu2 => hZ u hu1 (by omega))).symm
  · have hstep := rpvStep_adv_emit m num 0 (0, 0, -1) (dec3 m.n1 m.n2 ts)
      (Or.inl (by norm_num)) hAdv (dec3_fst_ne m h1 h2 hLt)
    rw [rpvRun_succ_some hstep]
    have hfuel2 : (num - 0) + num * (gridCount m - ts) ≤ F2 := by
      have hge : num * (gridCount m - ts) ≤ num * gridCount m :=
        Nat.mul_le_mul_left num (by omega)
      omega
    rw [rpvRun_mid m num h0 h1 h2 F2 ts 0 hLt hNz (by omega) hfuel2]
    rw [nzSuffix_split m num 0 ts (by omega) hLt (fun u hu1 hu2 => hZ u hu1 hu2) hNz]
    rw [show num = (num - 1) + 1 by omega]
    rw [List.replicate_succ, List.cons_append]
    simp

/- ----------------------------------------------------------------
   Grid enumeration and counting
   ---------------------------------------------------------------- -/

/-- All voxels of the grid, enumerated in the raster order the
traversal cursor follows (axis 2 fastest). -/
def voxListRaster (m : Img) : List (ℤ × ℤ × ℤ) :=
  (List.range (gridCount m)).map (dec3 m.n1 m.n2)

/-- The voxels with non-zero mask value, in raster order. -/
def nzVoxList (m : Img) : List (ℤ × ℤ × ℤ) :=
  (voxListRaster m).filter (fun v => decide (m.val v ≠ 0))

/-- Number of voxels with non-zero mask value. -/
def nzVoxCount (m : Img) : ℕ := (nzVoxList m).length

theorem voxListRaster_nodup (m : Img) (h1 : 0 < m.n1) (h2 : 0 < m.n2) :
    (voxListRaster m).Nodup := by
  refine List.Nodup.map_on ?_ (List.nodup_range _)
  intro x hx y hy hxy
  rw [List.mem_range] at hx hy
  have hx2 := rasterRank_dec3 m h1 h2 hx
  have hy2 := rasterRank_dec3 m h1 h2 hy
  have : (x : ℤ) = (y : ℤ) := by rw [← hx2, hxy, hy2]
  exact_mod_cast this

theorem mem_voxListRaster (m : Img) (h1 : 0 < m.n1) (h2 : 0 < m.n2)
    {v : ℤ × ℤ × ℤ} : v ∈ voxListRaster m ↔ inGrid m v := by
  unfold voxListRaster
  rw [List.mem_map]
  constructor
  · rintro ⟨t, ht, rfl⟩
    rw [List.mem_range] at ht
    exact dec3_inGrid m h1 h2 ht
  · intro h
    exact ⟨encV m v, by rw [List.mem_range]; exact (dec3_encV h1 h2 h).1,
      (dec3_encV h1 h2 h).2⟩

theorem nzVoxList_nodup (m : Img) (h1 : 0 < m.n1) (h2 : 0 < m.n2) :
    (nzVoxList m).Nodup :=
  List.Nodup.filter _ (voxListRaster_nodup m h1 h2)

theorem mem_nzVoxList (m : Img) (h1 : 0 < m.n1) (h2 : 0 < m.n2)
    {v : ℤ × ℤ × ℤ} : v ∈ nzVoxList m ↔ inGrid m v ∧ m.val v ≠ 0 := by
  unfold nzVoxList
  rw [List.mem_filter, mem_voxListRaster m h1 h2]
  simp

theorem nzSuffix_zero_eq (m : Img) (num : ℕ) :
    nzSuffix m num 0 = (nzVoxList m).flatMap (fun v => List.replicate num v) := by
  unfold nzSuffix nzVoxList voxListRaster
  rw [List.range_eq_range', Nat.sub_zero, List.filter_map, List.flatMap_map]
  rfl

theorem count_flatMap_replicate {α : Type} [BEq α] [LawfulBEq α] (num : ℕ) :
    ∀ L : List α, L.Nodup → ∀ v : α,
      (L.flatMap (fun x => List.replicate num x)).count v
        = if v ∈ L then num else 0 := by
  intro L
  induction L with
  | nil => intro _ v; simp
  | cons x L ih =>
    intro hnd v
    rw [List.flatMap_cons, List.count_append, ih hnd.of_cons v]
    by_cases hv : v = x
    · subst hv
      have hnm : v ∉ L := hnd.not_mem
      simp [List.count_replicate, hnm]
    · simp [List.count_replicate, hv, Ne.symm hv]

theorem length_flatMap_replicate {α : Type} (num : ℕ) :
    ∀ L : List α,
      (L.flatMap (fun x => List.replicate num x)).length = num * L.length := by
  intro L
  induction L with
  | nil => simp
  | cons x L ih =>
    simp only [List.flatMap_cons, List.length_append, List.length_replicate,
      List.length_cons, ih]
    ring

/-- C1: running Random_per_voxel with quota num to exhaustion yields
exactly num seeds in every non-zero mask voxel and none in any zero
voxel; the total number of successful calls is num times the number of
non-zero mask voxels, and every emitted seed voxel is an in-grid voxel
with non-zero mask value, so no voxel is skipped or double-counted. -/
theorem random_per_voxel_quota (m : Img) (num F : ℕ) (h0 : 0 < m.n0)
    (h1 : 0 < m.n1) (h2 : 0 < m.n2) (hnum : 1 ≤ num)
    (hF : 1 + num + num * gridCount m ≤ F) :
    (rpvRun m num F rpvInit).length = num * nzVoxCount m
    ∧ (∀ v, inGrid m v → m.val v ≠ 0 → (rpvRun m num F rpvInit).count v = num)
    ∧ (∀ v, m.val v = 0 → (rpvRun m num F rpvInit).count v = 0)
    ∧ (∀ v ∈ rpvRun m num F rpvInit, inGrid m v ∧ m.val v ≠ 0) := by
  have hrun : rpvRun m num F rpvInit
      = (nzVoxList m).flatMap (fun v => List.replicate num v) := by
    rw [rpvRun_full m num h0 h1 h2 hnum F hF, nzSuffix_zero_eq]
  rw [hrun]
  refine ⟨?_, ?_, ?_, ?_⟩
  · rw [length_flatMap_replicate]
    rfl
  · intro v hg hnz
    have hc := count_flatMap_replicate num (nzVoxList m)
      (nzVoxList_nodup m h1 h2) v
    rw [if_pos ((mem_nzVoxList m h1 h2).mpr ⟨hg, hnz⟩)] at hc
    exact hc
  · intro v hz
    have hc := count_flatMap_replicate num (nzVoxList m)
      (nzVoxList_nodup m h1 h2) v
    rw [if_neg (fun hmem => ((mem_nzVoxList m h1 h2).mp hmem).2 hz)] at hc
    exact hc
  · intro v hv
    rw [List.mem_flatMap] at hv
    obtain ⟨x, hx, hvx⟩ := hv
    rw [List.mem_replicate] at hvx
    obtain ⟨-, rfl⟩ := hvx
    exact (mem_nzVoxList m h1 h2).mp hx

/-- Concrete 1 by 1 by 2 mask whose only non-zero voxel is (0,0,1). -/
def mC1 : Img := ⟨1, 1, 2, fun v => if v = (0, 0, 1) then 1 else 0⟩

/-- Witness for C1: the quota theorem applied to the concrete mask mC1
with quota 2 and fuel 11. -/
theorem random_per_voxel_quota_witness :
    (rpvRun mC1 2 11 rpvInit).length = 2 * nzVoxCount mC1
    ∧ (∀ v, inGrid mC1 v → mC1.val v ≠ 0 → (rpvRun mC1 2 11 rpvInit).count v = 2)
    ∧ (∀ v, mC1.val v = 0 → (rpvRun mC1 2 11 rpvInit).count v = 0)
    ∧ (∀ v ∈ rpvRun mC1 2 11 rpvInit, inGrid mC1 v ∧ mC1.val v ≠ 0) :=
  random_per_voxel_quota mC1 2 11 (by decide) (by decide) (by decide)
    (by decide) (by decide)

/- ----------------------------------------------------------------
   The cursor visit sequence (claim C3)
   ---------------------------------------------------------------- -/

theorem count_eq_one_of_nodup_mem {α : Type} [BEq α] [LawfulBEq α]
    {l : List α} {a : α} (d : l.Nodup) (h : a ∈ l) : l.count a = 1 := by
  induction l with
  | nil => cases h
  | cons x l ih =>
    rw [List.count_cons]
    rcases List.mem_cons.mp h with rfl | hmem
    · have hz : l.count a = 0 := List.count_eq_zero.mpr d.not_mem
      simp [hz]
    · have hax : a ≠ x := by
        rintro rfl
        exact d.not_mem hmem
      rw [ih d.of_cons hmem]
      simp [Ne.symm hax]

/-- The sequence of cursor positions obtained by iterating the bump
step: the positions the traversal cursor of Random_per_voxel and
Grid_per_voxel passes through, in order, over the lifetime of the
strategy. -/
def bumpChain (m : Img) : ℕ → (ℤ × ℤ × ℤ) → List (ℤ × ℤ × ℤ)
  | 0, _ => []
  | k + 1, c => bump m c :: bumpChain m k (bump m c)

/-- The full visit sequence of the traversal cursor, starting from the
initial pre-start cursor and taking as many steps as the grid has
voxels. -/
def visitSeq (m : Img) : List (ℤ × ℤ × ℤ) :=
  bumpChain m (gridCount m) (0, 0, -1)

theorem bumpChain_eq (m : Img) (h0 : 0 < m.n0) (h1 : 0 < m.n1)
    (h2 : 0 < m.n2) :
    ∀ k t c, preCur m t c → t + k ≤ gridCount m →
      bumpChain m k c = (List.range' t k).map (dec3 m.n1 m.n2) := by
  intro k
  induction k with
  | zero => intro t c _ _; rfl
  | succ k ih =>
    intro t c hpre htk
    have htlt : t < gridCount m := by omega
    have hcur : isCur3 m.n0 m.n1 m.n2 t (bump m c) := bump_pre h0 h1 h2 hpre htlt
    have hbc : bump m c = dec3 m.n1 m.n2 t := isCur3_eq_dec3 h1 h2 hcur
    show bump m c :: bumpChain m k (bump m c) = _
    rw [ih (t + 1) (bump m c) (Or.inr ⟨t, rfl, hcur⟩) (by omega), hbc,
      List.range'_succ, List.map_cons]

theorem visitSeq_eq (m : Img) (h0 : 0 < m.n0) (h1 : 0 < m.n1)
    (h2 : 0 < m.n2) : visitSeq m = voxListRaster m := by
  unfold visitSeq voxListRaster
  rw [bumpChain_eq m h0 h1 h2 (gridCount m) 0 (0, 0, -1)
    (Or.inl ⟨rfl, rfl⟩) (by omega)]
  rw [List.range_eq_range']

/-- C3 (amended): the traversal cursor shared by Random_per_voxel and
Grid_per_voxel passes through each voxel of the mask grid exactly once
over the lifetime of the strategy, in the fixed deterministic raster
order in which AXIS 2, the last axis, varies fastest (the claim states
axis 0 is fastest; the code increments index 2 in its innermost
position). -/
theorem cursor_raster_axis2 (m : Img) (h0 : 0 < m.n0) (h1 : 0 < m.n1)
    (h2 : 0 < m.n2) :
    visitSeq m = voxListRaster m
    ∧ (∀ v, inGrid m v → (visitSeq m).count v = 1)
    ∧ (∀ v ∈ visitSeq m, inGrid m v)
    ∧ List.Pairwise (fun a b => rasterRank m a < rasterRank m b) (visitSeq m) := by
  have he := visitSeq_eq m h0 h1 h2
  refine ⟨he, ?_, ?_, ?_⟩
  · intro v hg
    rw [he]
    exact count_eq_one_of_nodup_mem (voxListRaster_nodup m h1 h2)
      ((mem_voxListRaster m h1 h2).mpr hg)
  · intro v hv
    rw [he] at hv
    exact (mem_voxListRaster m h1 h2).mp hv
  · rw [he]
    unfold voxListRaster
    rw [List.pairwise_map]
    refine List.Pairwise.imp_of_mem ?_ (List.pairwise_lt_range _)
    intro a b ha hb hab
    rw [List.mem_range] at ha hb
    rw [rasterRank_dec3 m h1 h2 ha, rasterRank_dec3 m h1 h2 hb]
    exact_mod_cast hab

/-- Witness for the amended C3 on a concrete 2 by 1 by 2 all-ones
mask. -/
theorem cursor_raster_axis2_witness :
    visitSeq ⟨2, 1, 2, fun _ => 1⟩ = voxListRaster ⟨2, 1, 2, fun _ => 1⟩
    ∧ (∀ v, inGrid ⟨2, 1, 2, fun _ => 1⟩ v →
        (visitSeq ⟨2, 1, 2, fun _ => 1⟩).count v = 1)
    ∧ (∀ v ∈ visitSeq ⟨2, 1, 2, fun _ => 1⟩, inGrid ⟨2, 1, 2, fun _ => 1⟩ v)
    ∧ List.Pairwise
        (fun a b => rasterRank ⟨2, 1, 2, fun _ => 1⟩ a
          < rasterRank ⟨2, 1, 2, fun _ => 1⟩ b)
        (visitSeq ⟨2, 1, 2, fun _ => 1⟩) :=
  cursor_raster_axis2 ⟨2, 1, 2, fun _ => 1⟩ (by decide) (by decide) (by decide)

/-- Raster enumeration of a grid in which axis 0 varies fastest,
written from the words of the claim (the innermost axis, axis 0,
varies fastest) for comparison with the order the code traverses. -/
def rasterAxis0 (n0 n1 n2 : ℕ) : List (ℤ × ℤ × ℤ) :=
  (List.range n2).flatMap fun k => (List.range n1).flatMap fun b =>
    (List.range n0).map fun a => ((a : ℤ), (b : ℤ), (k : ℤ))

/-- C3 counterexample: on a 2 by 1 by 2 all-ones mask the cursor visits
(0,0,1) second and (1,0,0) third, which is the raster order with axis 2
fastest, not the order with axis 0 fastest that the claim states. -/
theorem cursor_not_axis0 :
    visitSeq ⟨2, 1, 2, fun _ => 1⟩ = [(0, 0, 0), (0, 0, 1), (1, 0, 0), (1, 0, 1)]
    ∧ rasterAxis0 2 1 2 = [(0, 0, 0), (1, 0, 0), (0, 0, 1), (1, 0, 1)]
    ∧ visitSeq ⟨2, 1, 2, fun _ => 1⟩ ≠ rasterAxis0 2 1 2 := by
  decide

/- ----------------------------------------------------------------
   Grid_per_voxel (basic.cpp lines 112-148)
   ---------------------------------------------------------------- -/

/-- Mutable state of a Grid_per_voxel instance: the exhaustion flag,
the sub-voxel position triple pos and the traversal cursor. -/
structure GPVState where
  expired : Bool
  pos : ℤ × ℤ × ℤ
  cur : ℤ × ℤ × ℤ

/-- Advance of the sub-voxel position triple: the nested increments of
pos[2], pos[1] and pos[0], each wrapping to 0 on reaching the
oversampling factor os (basic.cpp lines 120-126); none signals that all
three wrapped, in which case get_seed advances the voxel cursor. -/
def posRoll (os : ℕ) (p : ℤ × ℤ × ℤ) : Option (ℤ × ℤ × ℤ) :=
  if p.2.2 + 1 ≥ (os : ℤ) then
    if p.2.1 + 1 ≥ (os : ℤ) then
      if p.1 + 1 ≥ (os : ℤ) then none
      else some (p.1 + 1, 0, 0)
    else some (p.1, p.2.1 + 1, 0)
  else some (p.1, p.2.1, p.2.2 + 1)

/-- One call of Grid_per_voxel::get_seed (basic.cpp lines 112-148),
returning the voxel index and sub-voxel position from which the point
is built together with the successor state; none models a false
return. -/
def gpvStep (m : Img) (os : ℕ) (s : GPVState) :
    Option ((ℤ × ℤ × ℤ) × (ℤ × ℤ × ℤ)) × GPVState :=
  if s.expired then (none, s)
  else
    match posRoll os s.pos with
    | some p2 => (some (s.cur, p2), ⟨false, p2, s.cur⟩)
    | none =>
      let c := advanceFrom m (advanceFuel m) s.cur
      if c.1 = (m.n0 : ℤ) then (none, ⟨true, (0, 0, 0), c⟩)
      else (some (c, (0, 0, 0)), ⟨false, (0, 0, 0), c⟩)

/-- Repeatedly call Grid_per_voxel get_seed, collecting the emitted
voxel and sub-voxel position pairs until the first false return (or
until the fuel runs out). -/
def gpvRun (m : Img) (os : ℕ) :
    ℕ → GPVState → List ((ℤ × ℤ × ℤ) × (ℤ × ℤ × ℤ))
  | 0, _ => []
  | F + 1, s =>
    match gpvStep m os s with
    | (none, _) => []
    | (some e, s2) => e :: gpvRun m os F s2

/-- Modelled from the spec: the Grid_per_voxel constructor is declared
in basic.h, which is not part of the sources; the strategy starts
unexhausted with pos = (os, os, os), so the first call wraps all three
sub-voxel axes and advances the cursor from before the first voxel,
index (0,0,-1). -/
def gpvInit (os : ℕ) : GPVState :=
  ⟨false, ((os : ℤ), (os : ℤ), (os : ℤ)), (0, 0, -1)⟩

/-- Modelled from the spec: the per-axis sub-voxel spacing, set in
basic.h from the oversampling factor so that the os lattice points
subdivide the unit voxel: step = 1/os. -/
def gridStep (os : ℕ) : ℚ := 1 / os

/-- Modelled from the spec: the per-axis sub-voxel base offset, set in
basic.h so the lattice is centred in the voxel: -1/2 + 1/(2 os). -/
def gridOffset (os : ℕ) : ℚ := -(1 / 2) + 1 / (2 * os)

/-- Number of sub-voxel lattice points per voxel. -/
def osCube (os : ℕ) : ℕ := os * os * os

/-- The pre-transform point emitted for a voxel index and sub-voxel
position pair: index plus offset plus position times step per axis
(basic.cpp line 144). -/
def gpvPoint (os : ℕ) (e : (ℤ × ℤ × ℤ) × (ℤ × ℤ × ℤ)) : ℚ × ℚ × ℚ :=
  ((e.1.1 : ℚ) + gridOffset os + (e.2.1 : ℚ) * gridStep os,
   (e.1.2.1 : ℚ) + gridOffset os + (e.2.2.1 : ℚ) * gridStep os,
   (e.1.2.2 : ℚ) + gridOffset os + (e.2.2.2 : ℚ) * gridStep os)

/-- The seeds a Grid_per_voxel run emits: each pre-transform lattice
point passed through the coordinate transform T (basic.cpp line 145). -/
def gpvSeeds (m : Img) (os : ℕ) (T : ℚ × ℚ × ℚ → ℚ × ℚ × ℚ) (F : ℕ) :
    List (ℚ × ℚ × ℚ) :=
  (gpvRun m os F (gpvInit os)).map (fun e => T (gpvPoint os e))

theorem gpvStep_expired {m : Img} {os : ℕ} {s : GPVState}
    (h : s.expired = true) : gpvStep m os s = (none, s) := by
  simp [gpvStep, h]

theorem gpvStep_emit (m : Img) (os : ℕ) (p p2 c : ℤ × ℤ × ℤ)
    (hp : posRoll os p = some p2) :
    gpvStep m os ⟨false, p, c⟩ = (some (c, p2), ⟨false, p2, c⟩) := by
  simp [gpvStep, hp]

theorem gpvStep_adv_exhaust (m : Img) (os : ℕ) (p c : ℤ × ℤ × ℤ)
    (hp : posRoll os p = none)
    (hA : advanceFrom m (advanceFuel m) c = ((m.n0 : ℤ), 0, 0)) :
    gpvStep m os ⟨false, p, c⟩
      = (none, ⟨true, (0, 0, 0), ((m.n0 : ℤ), 0, 0)⟩) := by
  simp [gpvStep, hp, hA]

theorem gpvStep_adv_emit (m : Img) (os : ℕ) (p c v : ℤ × ℤ × ℤ)
    (hp : posRoll os p = none)
    (hA : advanceFrom m (advanceFuel m) c = v) (hv : ¬ v.1 = (m.n0 : ℤ)) :
    gpvStep m os ⟨false, p, c⟩
      = (some (v, (0, 0, 0)), ⟨false, (0, 0, 0), v⟩) := by
  simp [gpvStep, hp, hA, hv]

theorem gpvRun_succ_none {m : Img} {os F : ℕ} {s s2 : GPVState}
    (hstep : gpvStep m os s = (none, s2)) : gpvRun m os (F + 1) s = [] := by
  simp [gpvRun, hstep]

theorem gpvRun_succ_some {m : Img} {os F : ℕ} {s s2 : GPVState}
    {e : (ℤ × ℤ × ℤ) × (ℤ × ℤ × ℤ)}
    (hstep : gpvStep m os s = (some e, s2)) :
    gpvRun m os (F + 1) s = e :: gpvRun m os F s2 := by
  simp [gpvRun, hstep]

theorem posRoll_init (os : ℕ) :
    posRoll os ((os : ℤ), (os : ℤ), (os : ℤ)) = none := by
  unfold posRoll
  rw [if_pos (by show (os : ℤ) + 1 ≥ (os : ℤ); omega),
    if_pos (by show (os : ℤ) + 1 ≥ (os : ℤ); omega),
    if_pos (by show (os : ℤ) + 1 ≥ (os : ℤ); omega)]

theorem posRoll_mid {os j : ℕ} {p : ℤ × ℤ × ℤ} (h : isCur3 os os os j p)
    (hj : j + 1 < osCube os) : posRoll os p = some (dec3 os os (j + 1)) := by
  obtain ⟨a, b, k, rfl, ha, hb, hk, henc⟩ := h
  simp only [osCube] at hj
  by_cases hk2 : k + 1 = os
  · by_cases hb2 : b + 1 = os
    · subst hb2
      have hkb : k = b := by omega
      have ha2 : a + 1 < b + 1 := by
        have he2 : j + 1 = (a + 1) * ((b + 1) * (b + 1)) := by
          rw [henc, hkb]
          ring
        have hlt : (a + 1) * ((b + 1) * (b + 1))
            < (b + 1) * ((b + 1) * (b + 1)) := by
          calc (a + 1) * ((b + 1) * (b + 1)) = j + 1 := he2.symm
            _ < (b + 1) * (b + 1) * (b + 1) := hj
            _ = (b + 1) * ((b + 1) * (b + 1)) := by ring
        exact lt_of_mul_lt_mul_right hlt (Nat.zero_le _)
      have hcur : isCur3 (b + 1) (b + 1) (b + 1) (j + 1) ((a : ℤ) + 1, 0, 0) :=
        ⟨a + 1, 0, 0, by push_cast; rfl, ha2, by omega, by omega, by
          rw [henc, hkb]
          ring⟩
      unfold posRoll
      rw [if_pos (by show (k : ℤ) + 1 ≥ ((b + 1 : ℕ) : ℤ); omega),
        if_pos (by show (b : ℤ) + 1 ≥ ((b + 1 : ℕ) : ℤ); omega),
        if_neg (by show ¬ ((a : ℤ) + 1 ≥ ((b + 1 : ℕ) : ℤ)); omega)]
      rw [isCur3_eq_dec3 (by omega) (by omega) hcur]
    · subst hk2
      have hcur : isCur3 (k + 1) (k + 1) (k + 1) (j + 1)
          ((a : ℤ), (b : ℤ) + 1, 0) :=
        ⟨a, b + 1, 0, by push_cast; rfl, ha, by omega, by omega, by
          rw [henc]
          ring⟩
      unfold posRoll
      rw [if_pos (by show (k : ℤ) + 1 ≥ ((k + 1 : ℕ) : ℤ); omega),
        if_neg (by show ¬ ((b : ℤ) + 1 ≥ ((k + 1 : ℕ) : ℤ)); omega)]
      rw [isCur3_eq_dec3 (by omega) (by omega) hcur]
  · have hcur : isCur3 os os os (j + 1) ((a : ℤ), (b : ℤ), (k : ℤ) + 1) :=
      ⟨a, b, k + 1, by push_cast; rfl, ha, hb, by omega, by
        rw [henc]
        omega⟩
    unfold posRoll
    rw [if_neg (by show ¬ ((k : ℤ) + 1 ≥ (os : ℤ)); omega)]
    rw [isCur3_eq_dec3 (by omega) (by omega) hcur]

theorem posRoll_exhaust {os j : ℕ} {p : ℤ × ℤ × ℤ} (h : isCur3 os os os j p)
    (hj : j + 1 = osCube os) : posRoll os p = none := by
  obtain ⟨a, b, k, rfl, ha, hb, hk, henc⟩ := h
  simp only [osCube] at hj
  have hk2 : k + 1 = os := by
    by_contra hne
    have hlt := isCur3_lt
      (show isCur3 os os os (j + 1) ((a : ℤ), (b : ℤ), ((k + 1 : ℕ) : ℤ))
        from ⟨a, b, k + 1, rfl, ha, hb, by omega, by rw [henc]; omega⟩)
    omega
  subst hk2
  have hb2 : b = k := by
    by_contra hne
    have hlt := isCur3_lt
      (show isCur3 (k + 1) (k + 1) (k + 1) (j + 1)
          ((a : ℤ), ((b + 1 : ℕ) : ℤ), ((0 : ℕ) : ℤ))
        from ⟨a, b + 1, 0, rfl, ha, by omega, by omega, by rw [henc]; ring⟩)
    have hnf : (k + 1) * (k + 1) * (k + 1) = (k + 1) * ((k + 1) * (k + 1)) := by
      ring
    rw [hnf] at hj
    omega
  subst hb2
  have ha2 : a + 1 = b + 1 := by
    have he2 : j + 1 = (a + 1) * ((b + 1) * (b + 1)) := by
      rw [henc]
      ring
    have he : (a + 1) * ((b + 1) * (b + 1))
        = (b + 1) * ((b + 1) * (b + 1)) := by
      calc (a + 1) * ((b + 1) * (b + 1)) = j + 1 := he2.symm
        _ = (b + 1) * (b + 1) * (b + 1) := hj
        _ = (b + 1) * ((b + 1) * (b + 1)) := by ring
    exact Nat.eq_of_mul_eq_mul_right (Nat.mul_pos (by omega) (by omega)) he
  unfold posRoll
  rw [if_pos (by show (b : ℤ) + 1 ≥ ((b + 1 : ℕ) : ℤ); omega),
    if_pos (by show (b : ℤ) + 1 ≥ ((b + 1 : ℕ) : ℤ); omega),
    if_pos (by show (a : ℤ) + 1 ≥ ((b + 1 : ℕ) : ℤ); omega)]

/-- Emissions the Grid_per_voxel run produces from raster position t
onwards: the full sub-voxel lattice of every voxel at position at least
t with non-zero mask value, in raster order. -/
def gpvSuffix (m : Img) (os t : ℕ) : List ((ℤ × ℤ × ℤ) × (ℤ × ℤ × ℤ)) :=
  ((List.range' t (gridCount m - t)).filter
      (fun u => decide (m.val (dec3 m.n1 m.n2 u) ≠ 0))).flatMap
    (fun u => (List.range (osCube os)).map
      (fun j => (dec3 m.n1 m.n2 u, dec3 os os j)))

theorem gpvSuffix_nil (m : Img) (os t : ℕ)
    (hz : ∀ u, t ≤ u → u < gridCount m → m.val (dec3 m.n1 m.n2 u) = 0) :
    gpvSuffix m os t = [] := by
  unfold gpvSuffix
  have hfil : (List.range' t (gridCount m - t)).filter
      (fun u => decide (m.val (dec3 m.n1 m.n2 u) ≠ 0)) = [] := by
    rw [List.filter_eq_nil_iff]
    intro u hu
    rw [List.mem_range'_1] at hu
    have hval := hz u hu.1 (by omega)
    simp [hval]
  rw [hfil]
  rfl

theorem gpvSuffix_split (m : Img) (os t ts : ℕ) (hle : t ≤ ts)
    (hts : ts < gridCount m)
    (hz : ∀ u, t ≤ u → u < ts → m.val (dec3 m.n1 m.n2 u) = 0)
    (hnz : m.val (dec3 m.n1 m.n2 ts) ≠ 0) :
    gpvSuffix m os t
      = ((List.range (osCube os)).map
          (fun j => (dec3 m.n1 m.n2 ts, dec3 os os j)))
        ++ gpvSuffix m os (ts + 1) := by
  unfold gpvSuffix
  have e1 : gridCount m - t = (gridCount m - ts) + (ts - t) := by omega
  have e2 : t + 1 * (ts - t) = ts := by omega
  have hsplit : List.range' t (gridCount m - t)
      = List.range' t (ts - t) ++ List.range' ts (gridCount m - ts) := by
    rw [e1, ← List.range'_append, e2]
  rw [hsplit, List.filter_append]
  have hfirst : (List.range' t (ts - t)).filter
      (fun u => decide (m.val (dec3 m.n1 m.n2 u) ≠ 0)) = [] := by
    rw [List.filter_eq_nil_iff]
    intro u hu
    rw [List.mem_range'_1] at hu
    have hval := hz u hu.1 (by omega)
    simp [hval]
  have hsecond : List.range' ts (gridCount m - ts)
      = ts :: List.range' (ts + 1) (gridCount m - (ts + 1)) := by
    have e : gridCount m - ts = (gridCount m - (ts + 1)) + 1 := by omega
    rw [e, List.range'_succ]
  rw [hfirst, hsecond, List.nil_append]
  rw [List.filter_cons_of_pos (by simp [hnz])]
  rw [List.flatMap_cons]

theorem range_head (n : ℕ) (hn : 0 < n) :
    List.range n = 0 :: List.range' 1 (n - 1) := by
  rw [List.range_eq_range']
  have e : n = (n - 1) + 1 := by omega
  conv_lhs => rw [e]
  rw [List.range'_succ]

theorem dec3_zero (os : ℕ) : dec3 os os 0 = ((0 : ℤ), (0 : ℤ), (0 : ℤ)) := by
  unfold dec3
  norm_num

theorem gpvRun_mid (m : Img) (os : ℕ) (h0 : 0 < m.n0) (h1 : 0 < m.n1)
    (h2 : 0 < m.n2) (hos : 1 ≤ os) :
    ∀ F t j, t < gridCount m → m.val (dec3 m.n1 m.n2 t) ≠ 0 → j < osCube os →
      (osCube os - j) + osCube os * (gridCount m - t) ≤ F →
      gpvRun m os F ⟨false, dec3 os os j, dec3 m.n1 m.n2 t⟩
        = ((List.range' (j + 1) (osCube os - 1 - j)).map
            (fun u => (dec3 m.n1 m.n2 t, dec3 os os u)))
          ++ gpvSuffix m os (t + 1) := by
  intro F
  induction F with
  | zero =>
    intro t j ht hnz hj hfuel
    exfalso
    omega
  | succ F ih =>
    intro t j ht hnz hj hfuel
    have hposJ : isCur3 os os os j (dec3 os os j) := by
      apply isCur3_dec3 (by omega) (by omega)
      show j < os * os * os
      have := hj
      simp only [osCube] at this
      exact this
    by_cases hjn : j + 1 = osCube os
    · have hroll : posRoll os (dec3 os os j) = none := posRoll_exhaust hposJ hjn
      obtain ⟨ts, hts1, hts2, hZ, hres⟩ :=
        advanceFrom_spec m h0 h1 h2 (advanceFuel m) (t + 1) (dec3 m.n1 m.n2 t)
          (Or.inr ⟨t, rfl, isCur3_dec3 h1 h2 ht⟩) (by omega)
          (by unfold advanceFuel; omega)
      rcases hres with ⟨hEq, hAdv⟩ | ⟨hLt, hNz, hAdv⟩
      · have hstep := gpvStep_adv_exhaust m os (dec3 os os j)
          (dec3 m.n1 m.n2 t) hroll hAdv
        rw [gpvRun_succ_none hstep]
        have hrep : osCube os - 1 - j = 0 := by omega
        rw [hrep]
        rw [show List.range' (j + 1) 0 = [] from rfl, List.map_nil,
          List.nil_append]
        exact (gpvSuffix_nil m os (t + 1)
          (fun u hu1 hu2 => hZ u hu1 (by omega))).symm
      · have hstep := gpvStep_adv_emit m os (dec3 os os j)
          (dec3 m.n1 m.n2 t) (dec3 m.n1 m.n2 ts) hroll hAdv
          (dec3_fst_ne m h1 h2 hLt)
        rw [gpvRun_succ_some hstep]
        have hfuel2 : (osCube os - 0) + osCube os * (gridCount m - ts) ≤ F := by
          have e : gridCount m - t = (gridCount m - ts) + (ts - t) := by omega
          rw [e, Nat.mul_add] at hfuel
          have hge : osCube os ≤ osCube os * (ts - t) :=
            Nat.le_mul_of_pos_right (osCube os) (by omega)
          omega
        have hcube : 0 < osCube os := by
          simp only [osCube]
          exact Nat.mul_pos (Nat.mul_pos (by omega) (by omega)) (by omega)
        have h000 : (⟨false, (0, 0, 0), dec3 m.n1 m.n2 ts⟩ : GPVState)
            = ⟨false, dec3 os os 0, dec3 m.n1 m.n2 ts⟩ := by
          rw [dec3_zero]
        rw [h000, ih ts 0 hLt hNz (by omega) hfuel2]
        have hrep : osCube os - 1 - j = 0 := by omega
        rw [hrep]
        rw [show List.range' (j + 1) 0 = [] from rfl, List.map_nil,
          List.nil_append]
        rw [gpvSuffix_split m os (t + 1) ts hts1 hLt hZ hNz]
        rw [range_head (osCube os) hcube, List.map_cons, List.cons_append,
          dec3_zero]
        norm_num
    · have hroll : posRoll os (dec3 os os j) = some (dec3 os os (j + 1)) := by
        apply posRoll_mid hposJ
        omega
      have hstep := gpvStep_emit m os (dec3 os os j) (dec3 os os (j + 1))
        (dec3 m.n1 m.n2 t) hroll
      rw [gpvRun_succ_some hstep]
      rw [ih t (j + 1) ht hnz (by omega) (by omega)]
      rw [show osCube os - 1 - j = (osCube os - 1 - (j + 1)) + 1 by omega]
      rw [List.range'_succ, List.map_cons, List.cons_append]

theorem gpvRun_full (m : Img) (os : ℕ) (h0 : 0 < m.n0) (h1 : 0 < m.n1)
    (h2 : 0 < m.n2) (hos : 1 ≤ os) :
    ∀ F, 1 + osCube os + osCube os * gridCount m ≤ F →
      gpvRun m os F (gpvInit os) = gpvSuffix m os 0 := by
  intro F hF
  obtain ⟨F2, rfl⟩ : ∃ F2, F = F2 + 1 := ⟨F - 1, by omega⟩
  obtain ⟨ts, hts1, hts2, hZ, hres⟩ :=
    advanceFrom_spec m h0 h1 h2 (advanceFuel m) 0 (0, 0, -1)
      (Or.inl ⟨rfl, rfl⟩) (by omega) (by unfold advanceFuel; omega)
  show gpvRun m os (F2 + 1)
    ⟨false, ((os : ℤ), (os : ℤ), (os : ℤ)), (0, 0, -1)⟩ = _
  rcases hres with ⟨hEq, hAdv⟩ | ⟨hLt, hNz, hAdv⟩
  · have hstep := gpvStep_adv_exhaust m os ((os : ℤ), (os : ℤ), (os : ℤ))
      (0, 0, -1) (posRoll_init os) hAdv
    rw [gpvRun_succ_none hstep]
    exact (gpvSuffix_nil m os 0 (fun u hu1 hu2 => hZ u hu1 (by omega))).symm
  · have hstep := gpvStep_adv_emit m os ((os : ℤ), (os : ℤ), (os : ℤ))
      (0, 0, -1) (dec3 m.n1 m.n2 ts) (posRoll_init os) hAdv
      (dec3_fst_ne m h1 h2 hLt)
    rw [gpvRun_succ_some hstep]
    have hfuel2 : (osCube os - 0) + osCube os * (gridCount m - ts) ≤ F2 := by
      have hge : osCube os * (gridCount m - ts) ≤ osCube os * gridCount m :=
        Nat.mul_le_mul_left (osCube os) (by omega)
      omega
    have h000 : (⟨false, (0, 0, 0), dec3 m.n1 m.n2 ts⟩ : GPVState)
        = ⟨false, dec3 os os 0, dec3 m.n1 m.n2 ts⟩ := by
      rw [dec3_zero]
    rw [h000, gpvRun_mid m os h0 h1 h2 hos F2 ts 0 hLt hNz
      (by
        simp only [osCube]
        exact Nat.mul_pos (Nat.mul_pos (by omega) (by omega)) (by omega))
      hfuel2]
    rw [gpvSuffix_split m os 0 ts (by omega) hLt
      (fun u hu1 hu2 => hZ u hu1 hu2) hNz]
    have hcube : 0 < osCube os := by
      simp only [osCube]
      exact Nat.mul_pos (Nat.mul_pos (by omega) (by omega)) (by omega)
    rw [range_head (osCube os) hcube, List.map_cons, List.cons_append,
      dec3_zero]
    norm_num

/-- Cubic grid of side os used to reason about sub-voxel positions. -/
def cubeImg (os : ℕ) : Img := ⟨os, os, os, fun _ => 0⟩

theorem gpvSuffix_zero_eq (m : Img) (os : ℕ) :
    gpvSuffix m os 0 = (nzVoxList m).flatMap
      (fun v => (List.range (osCube os)).map (fun j => (v, dec3 os os j))) := by
  unfold gpvSuffix nzVoxList voxListRaster
  rw [Nat.sub_zero, ← List.range_eq_range', List.filter_map, List.flatMap_map]
  rfl

theorem length_flatMap_const {α β : Type} (L : List α) (g : α → List β)
    (n : ℕ) (hg : ∀ x, (g x).length = n) :
    (L.flatMap g).length = n * L.length := by
  induction L with
  | nil => simp
  | cons x L ih =>
    simp only [List.flatMap_cons, List.length_append, List.length_cons, ih, hg]
    ring

theorem dec3_os_inj (os : ℕ) (hos : 1 ≤ os) :
    ∀ j ∈ List.range (osCube os), ∀ j2 ∈ List.range (osCube os),
      dec3 os os j = dec3 os os j2 → j = j2 := by
  intro j hj j2 hj2 he
  rw [List.mem_range] at hj hj2
  have r1 := rasterRank_dec3 (cubeImg os) (show 0 < (cubeImg os).n1 from hos)
    (show 0 < (cubeImg os).n2 from hos) (show j < gridCount (cubeImg os) from hj)
  have r2 := rasterRank_dec3 (cubeImg os) (show 0 < (cubeImg os).n1 from hos)
    (show 0 < (cubeImg os).n2 from hos) (show j2 < gridCount (cubeImg os) from hj2)
  have : (j : ℤ) = (j2 : ℤ) := by
    rw [← r1, ← r2]
    exact congrArg (rasterRank (cubeImg os)) he
  exact_mod_cast this

theorem gpvSuffix_mem (m : Img) (os : ℕ) {e : (ℤ × ℤ × ℤ) × (ℤ × ℤ × ℤ)}
    (h1 : 0 < m.n1) (h2 : 0 < m.n2)
    (he : e ∈ gpvSuffix m os 0) :
    (inGrid m e.1 ∧ m.val e.1 ≠ 0)
      ∧ ∃ j, j < osCube os ∧ e.2 = dec3 os os j := by
  rw [gpvSuffix_zero_eq] at he
  rw [List.mem_flatMap] at he
  obtain ⟨v, hv, hev⟩ := he
  rw [List.mem_map] at hev
  obtain ⟨j, hj, rfl⟩ := hev
  rw [List.mem_range] at hj
  exact ⟨(mem_nzVoxList m h1 h2).mp hv, j, hj, rfl⟩

theorem gpvSuffix_nodup (m : Img) (os : ℕ) (h1 : 0 < m.n1) (h2 : 0 < m.n2)
    (hos : 1 ≤ os) : (gpvSuffix m os 0).Nodup := by
  rw [gpvSuffix_zero_eq, List.nodup_flatMap]
  constructor
  · intro v hv
    refine List.Nodup.map_on ?_ (List.nodup_range _)
    intro j hj j2 hj2 hpair
    have : dec3 os os j = dec3 os os j2 := by
      have := congrArg Prod.snd hpair
      simpa using this
    exact dec3_os_inj os hos j hj j2 hj2 this
  · refine List.Pairwise.imp ?_ (nzVoxList_nodup m h1 h2)
    intro v w hvw a hav haw
    rw [List.mem_map] at hav haw
    obtain ⟨j, -, rfl⟩ := hav
    obtain ⟨j2, -, hj2⟩ := haw
    exact hvw (congrArg Prod.fst hj2).symm

theorem lattice_axis_inj (os : ℕ) (hos : 1 ≤ os) {v w x y : ℤ}
    (hx0 : 0 ≤ x) (hx1 : x < (os : ℤ)) (hy0 : 0 ≤ y) (hy1 : y < (os : ℤ))
    (h : (v : ℚ) + gridOffset os + (x : ℚ) * gridStep os
        = (w : ℚ) + gridOffset os + (y : ℚ) * gridStep os) :
    v = w ∧ x = y := by
  have hosQ : ((os : ℚ)) ≠ 0 := by
    have hpos : (0 : ℚ) < os := by exact_mod_cast (by omega : 0 < os)
    exact ne_of_gt hpos
  rw [gridStep] at h
  have hQ : (v : ℚ) * os + x = (w : ℚ) * os + y := by
    field_simp at h
    linarith
  have hz : v * (os : ℤ) + x = w * os + y := by exact_mod_cast hQ
  have hvw : v = w := by
    rcases lt_trichotomy v w with hlt | heq2 | hgt
    · exfalso
      have hstep1 : (1 : ℤ) ≤ w - v := by omega
      have hstep2 : (os : ℤ) ≤ (w - v) * os := by
        calc (os : ℤ) = 1 * os := (one_mul _).symm
          _ ≤ (w - v) * os := by
            apply mul_le_mul_of_nonneg_right hstep1
            exact_mod_cast Nat.zero_le os
      have hstep3 : x - y = (w - v) * os := by linear_combination hz
      omega
    · exact heq2
    · exfalso
      have hstep1 : (1 : ℤ) ≤ v - w := by omega
      have hstep2 : (os : ℤ) ≤ (v - w) * os := by
        calc (os : ℤ) = 1 * os := (one_mul _).symm
          _ ≤ (v - w) * os := by
            apply mul_le_mul_of_nonneg_right hstep1
            exact_mod_cast Nat.zero_le os
      have hstep3 : y - x = (v - w) * os := by linear_combination -1 * hz
      omega
  subst hvw
  exact ⟨rfl, by omega⟩

theorem gpvPoint_inj (os : ℕ) (hos : 1 ≤ os)
    {e e2 : (ℤ × ℤ × ℤ) × (ℤ × ℤ × ℤ)}
    (hb : inGrid (cubeImg os) e.2) (hb2 : inGrid (cubeImg os) e2.2)
    (heq : gpvPoint os e = gpvPoint os e2) : e = e2 := by
  obtain ⟨⟨v1, v2, v3⟩, x1, x2, x3⟩ := e
  obtain ⟨⟨w1, w2, w3⟩, y1, y2, y3⟩ := e2
  obtain ⟨ha1, ha2, hb1, hb2a, hc1, hc2⟩ := hb
  obtain ⟨ha1b, ha2b, hb1b, hb2b, hc1b, hc2b⟩ := hb2
  unfold gpvPoint at heq
  have e1 := congrArg Prod.fst heq
  have e2a := congrArg (fun q => q.2.1) heq
  have e3 := congrArg (fun q => q.2.2) heq
  simp only [] at e1 e2a e3
  obtain ⟨hv1, hx1⟩ := lattice_axis_inj os hos ha1 ha2 ha1b ha2b e1
  obtain ⟨hv2, hx2⟩ := lattice_axis_inj os hos hb1 hb2a hb1b hb2b e2a
  obtain ⟨hv3, hx3⟩ := lattice_axis_inj os hos hc1 hc2 hc1b hc2b e3
  have hx1b : x1 = y1 := hx1
  have hx2b : x2 = y2 := hx2
  have hx3b : x3 = y3 := hx3
  subst hv1
  subst hv2
  subst hv3
  subst hx1b
  subst hx2b
  subst hx3b
  rfl

/-- C4: running Grid_per_voxel with oversampling os to exhaustion emits
exactly os cubed seeds per non-zero mask voxel (and none elsewhere),
each emitted point being the voxel index plus offset + pos d * step per
axis passed through the coordinate transform, and no two emitted seeds
coincide when the transform is injective. -/
theorem grid_per_voxel_lattice (m : Img) (os F : ℕ)
    (T : ℚ × ℚ × ℚ → ℚ × ℚ × ℚ)
    (h0 : 0 < m.n0) (h1 : 0 < m.n1) (h2 : 0 < m.n2) (hos : 1 ≤ os)
    (hT : Function.Injective T)
    (hF : 1 + osCube os + osCube os * gridCount m ≤ F) :
    gpvSeeds m os T F
        = (gpvRun m os F (gpvInit os)).map (fun e => T (gpvPoint os e))
    ∧ (gpvRun m os F (gpvInit os)).length = osCube os * nzVoxCount m
    ∧ (∀ v, inGrid m v → m.val v ≠ 0 →
        ((gpvRun m os F (gpvInit os)).map Prod.fst).count v = osCube os)
    ∧ (∀ v, m.val v = 0 →
        ((gpvRun m os F (gpvInit os)).map Prod.fst).count v = 0)
    ∧ (∀ e ∈ gpvRun m os F (gpvInit os), inGrid m e.1 ∧ m.val e.1 ≠ 0)
    ∧ (gpvSeeds m os T F).Nodup := by
  have hrun : gpvRun m os F (gpvInit os) = gpvSuffix m os 0 :=
    gpvRun_full m os h0 h1 h2 hos F hF
  have hfst : (gpvSuffix m os 0).map Prod.fst
      = (nzVoxList m).flatMap (fun v => List.replicate (osCube os) v) := by
    rw [gpvSuffix_zero_eq, List.map_flatMap]
    have hin : ∀ v : ℤ × ℤ × ℤ,
        ((List.range (osCube os)).map (fun j => (v, dec3 os os j))).map Prod.fst
          = List.replicate (osCube os) v := by
      intro v
      rw [List.map_map]
      show (List.range (osCube os)).map (fun _ => v) = _
      rw [List.map_const', List.length_range]
    simp only [hin]
  refine ⟨rfl, ?_, ?_, ?_, ?_, ?_⟩
  · rw [hrun, gpvSuffix_zero_eq]
    rw [length_flatMap_const _ _ (osCube os)
      (fun x => by rw [List.length_map, List.length_range])]
    rfl
  · intro v hg hnz
    rw [hrun, hfst]
    have hc := count_flatMap_replicate (osCube os) (nzVoxList m)
      (nzVoxList_nodup m h1 h2) v
    rw [if_pos ((mem_nzVoxList m h1 h2).mpr ⟨hg, hnz⟩)] at hc
    exact hc
  · intro v hz
    rw [hrun, hfst]
    have hc := count_flatMap_replicate (osCube os) (nzVoxList m)
      (nzVoxList_nodup m h1 h2) v
    rw [if_neg (fun hmem => ((mem_nzVoxList m h1 h2).mp hmem).2 hz)] at hc
    exact hc
  · intro e he
    rw [hrun] at he
    exact (gpvSuffix_mem m os h1 h2 he).1
  · show ((gpvRun m os F (gpvInit os)).map (fun e => T (gpvPoint os e))).Nodup
    rw [hrun]
    refine List.Nodup.map_on ?_ (gpvSuffix_nodup m os h1 h2 hos)
    intro e hee e2 he2 heq
    obtain ⟨-, j, hj, hj2⟩ := gpvSuffix_mem m os h1 h2 hee
    obtain ⟨-, j2, hjb, hj2b⟩ := gpvSuffix_mem m os h1 h2 he2
    have hbound : inGrid (cubeImg os) e.2 := by
      rw [hj2]
      exact dec3_inGrid (cubeImg os) (show 0 < (cubeImg os).n1 from hos)
        (show 0 < (cubeImg os).n2 from hos)
        (show j < gridCount (cubeImg os) from hj)
    have hbound2 : inGrid (cubeImg os) e2.2 := by
      rw [hj2b]
      exact dec3_inGrid (cubeImg os) (show 0 < (cubeImg os).n1 from hos)
        (show 0 < (cubeImg os).n2 from hos)
        (show j2 < gridCount (cubeImg os) from hjb)
    exact gpvPoint_inj os hos hbound hbound2 (hT heq)

/-- Concrete single-voxel mask for the C4 witness. -/
def mC4 : Img := ⟨1, 1, 1, fun _ => 1⟩

/-- Witness for C4: the lattice theorem applied to a single-voxel mask
with oversampling 2, the identity transform and fuel 17. -/
theorem grid_per_voxel_lattice_witness :
    gpvSeeds mC4 2 (fun q => q) 17
        = (gpvRun mC4 2 17 (gpvInit 2)).map (fun e => gpvPoint 2 e)
    ∧ (gpvRun mC4 2 17 (gpvInit 2)).length = osCube 2 * nzVoxCount mC4
    ∧ (∀ v, inGrid mC4 v → mC4.val v ≠ 0 →
        ((gpvRun mC4 2 17 (gpvInit 2)).map Prod.fst).count v = osCube 2)
    ∧ (∀ v, mC4.val v = 0 →
        ((gpvRun mC4 2 17 (gpvInit 2)).map Prod.fst).count v = 0)
    ∧ (∀ e ∈ gpvRun mC4 2 17 (gpvInit 2), inGrid mC4 e.1 ∧ mC4.val e.1 ≠ 0)
    ∧ (gpvSeeds mC4 2 (fun q => q) 17).Nodup :=
  grid_per_voxel_lattice mC4 2 17 (fun q => q) (by decide) (by decide)
    (by decide) (by decide) (fun a b h => h) (by decide)

/- ----------------------------------------------------------------
   Exhaustion permanence (claim C5)
   ---------------------------------------------------------------- -/

/-- State reached after k further get_seed calls of Random_per_voxel. -/
def rpvAfter (m : Img) (num : ℕ) : ℕ → RPVState → RPVState
  | 0, s => s
  | k + 1, s => rpvAfter m num k (rpvStep m num s).2

/-- State reached after k further get_seed calls of Grid_per_voxel. -/
def gpvAfter (m : Img) (os : ℕ) : ℕ → GPVState → GPVState
  | 0, s => s
  | k + 1, s => gpvAfter m os k (gpvStep m os s).2

theorem rpvStep_adv_cases (m : Img) (num j : ℕ) (c : ℤ × ℤ × ℤ)
    (hc : c.2.2 < 0 ∨ j + 1 = num) :
    rpvStep m num ⟨false, j, c⟩
      = (if (advanceFrom m (advanceFuel m) c).1 = (m.n0 : ℤ)
          then (none, ⟨true, 0, advanceFrom m (advanceFuel m) c⟩)
          else (some (advanceFrom m (advanceFuel m) c),
            ⟨false, 0, advanceFrom m (advanceFuel m) c⟩)) := by
  simp [rpvStep, hc]

theorem gpvStep_adv_cases (m : Img) (os : ℕ) (p c : ℤ × ℤ × ℤ)
    (hp : posRoll os p = none) :
    gpvStep m os ⟨false, p, c⟩
      = (if (advanceFrom m (advanceFuel m) c).1 = (m.n0 : ℤ)
          then (none, ⟨true, (0, 0, 0), advanceFrom m (advanceFuel m) c⟩)
          else (some (advanceFrom m (advanceFuel m) c, (0, 0, 0)),
            ⟨false, (0, 0, 0), advanceFrom m (advanceFuel m) c⟩)) := by
  simp [gpvStep, hp]

theorem rpvStep_none_expired (m : Img) (num : ℕ) (s : RPVState)
    (h : (rpvStep m num s).1 = none) : (rpvStep m num s).2.expired = true := by
  by_cases he : s.expired = true
  · rw [rpvStep_expired he]
    exact he
  · obtain ⟨e, j, c⟩ := s
    have hef : e = false := by simpa using he
    subst hef
    by_cases hc : c.2.2 < 0 ∨ j + 1 = num
    · rw [rpvStep_adv_cases m num j c hc] at h ⊢
      by_cases hv : (advanceFrom m (advanceFuel m) c).1 = (m.n0 : ℤ)
      · rw [if_pos hv]
      · rw [if_neg hv] at h
        simp at h
    · rw [rpvStep_emit m num j c hc] at h
      simp at h

theorem gpvStep_none_expired (m : Img) (os : ℕ) (g : GPVState)
    (h : (gpvStep m os g).1 = none) : (gpvStep m os g).2.expired = true := by
  by_cases he : g.expired = true
  · rw [gpvStep_expired he]
    exact he
  · obtain ⟨e, p, c⟩ := g
    have hef : e = false := by simpa using he
    subst hef
    rcases hp : posRoll os p with - | p2
    · rw [gpvStep_adv_cases m os p c hp] at h ⊢
      by_cases hv : (advanceFrom m (advanceFuel m) c).1 = (m.n0 : ℤ)
      · rw [if_pos hv]
      · rw [if_neg hv] at h
        simp at h
    · rw [gpvStep_emit m os p p2 c hp] at h
      simp at h

theorem rpvAfter_expired (m : Img) (num : ℕ) :
    ∀ k (s : RPVState), s.expired = true → rpvAfter m num k s = s := by
  intro k
  induction k with
  | zero => intro s _; rfl
  | succ k ih =>
    intro s hs
    show rpvAfter m num k (rpvStep m num s).2 = s
    rw [rpvStep_expired hs]
    exact ih s hs

theorem gpvAfter_expired (m : Img) (os : ℕ) :
    ∀ k (g : GPVState), g.expired = true → gpvAfter m os k g = g := by
  intro k
  induction k with
  | zero => intro g _; rfl
  | succ k ih =>
    intro g hg
    show gpvAfter m os k (gpvStep m os g).2 = g
    rw [gpvStep_expired hg]
    exact ih g hg

/-- C5: for Random_per_voxel and Grid_per_voxel, when the exhaustion
flag is set get_seed returns false and leaves the state unchanged, so
the flag is never cleared; a false return always leaves the flag set;
and once a call has returned false, every subsequent call also returns
false: exhaustion is permanent and monotonic. -/
theorem exhaustion_permanent (m : Img) (num os : ℕ) (s : RPVState)
    (g : GPVState) :
    (s.expired = true → rpvStep m num s = (none, s))
    ∧ ((rpvStep m num s).1 = none → (rpvStep m num s).2.expired = true)
    ∧ (∀ k, (rpvStep m num s).1 = none →
        (rpvStep m num (rpvAfter m num k (rpvStep m num s).2)).1 = none)
    ∧ (g.expired = true → gpvStep m os g = (none, g))
    ∧ ((gpvStep m os g).1 = none → (gpvStep m os g).2.expired = true)
    ∧ (∀ k, (gpvStep m os g).1 = none →
        (gpvStep m os (gpvAfter m os k (gpvStep m os g).2)).1 = none) := by
  refine ⟨fun h => rpvStep_expired h, rpvStep_none_expired m num s,
    fun k h => ?_, fun h => gpvStep_expired h, gpvStep_none_expired m os g,
    fun k h => ?_⟩
  · have hex := rpvStep_none_expired m num s h
    rw [rpvAfter_expired m num k _ hex, rpvStep_expired hex]
  · have hex := gpvStep_none_expired m os g h
    rw [gpvAfter_expired m os k _ hex, gpvStep_expired hex]

/-- Concrete mask for the C5 witness. -/
def mC5 : Img := ⟨1, 1, 1, fun _ => 1⟩

/-- Witness for C5: an expired Random_per_voxel state and an expired
Grid_per_voxel state both return false and keep their state. -/
theorem exhaustion_permanent_witness :
    rpvStep mC5 1 ⟨true, 0, (0, 0, 0)⟩ = (none, ⟨true, 0, (0, 0, 0)⟩)
    ∧ (rpvStep mC5 1
        (rpvAfter mC5 1 3 (rpvStep mC5 1 ⟨true, 0, (0, 0, 0)⟩).2)).1 = none
    ∧ gpvStep mC5 1 ⟨true, (0, 0, 0), (0, 0, 0)⟩
        = (none, ⟨true, (0, 0, 0), (0, 0, 0)⟩)
    ∧ (gpvStep mC5 1
        (gpvAfter mC5 1 3 (gpvStep mC5 1 ⟨true, (0, 0, 0), (0, 0, 0)⟩).2)).1
      = none :=
  ⟨(exhaustion_permanent mC5 1 1 ⟨true, 0, (0, 0, 0)⟩
      ⟨true, (0, 0, 0), (0, 0, 0)⟩).1 rfl,
    (exhaustion_permanent mC5 1 1 ⟨true, 0, (0, 0, 0)⟩
      ⟨true, (0, 0, 0), (0, 0, 0)⟩).2.2.1 3 (by decide),
    (exhaustion_permanent mC5 1 1 ⟨true, 0, (0, 0, 0)⟩
      ⟨true, (0, 0, 0), (0, 0, 0)⟩).2.2.2.1 rfl,
    (exhaustion_permanent mC5 1 1 ⟨true, 0, (0, 0, 0)⟩
      ⟨true, (0, 0, 0), (0, 0, 0)⟩).2.2.2.2.2 3 (by decide)⟩

/- ----------------------------------------------------------------
   Rejection construction (basic.cpp lines 151-199)
   ---------------------------------------------------------------- -/

/-- All voxels of an image in the order Loop(0,3) scans them, axis 0
innermost (fastest). -/
def voxScanList (img : Img) : List (ℤ × ℤ × ℤ) :=
  (List.range img.n2).flatMap fun (k : ℕ) =>
    (List.range img.n1).flatMap fun (b : ℕ) =>
      (List.range img.n0).map fun (a : ℕ) => ((a : ℤ), (b : ℤ), (k : ℤ))

/-- Accumulator of the construction scan: the running maximum, the
running sum of values, and the bounding box of non-zero voxels
(bottom per axis, initialised to the size_t sentinel, and top per
axis, initialised to 0). -/
structure ScanSt where
  max : ℚ
  volume : ℚ
  b0 : ℤ
  b1 : ℤ
  b2 : ℤ
  t0 : ℤ
  t1 : ℤ
  t2 : ℤ

/-- One iteration of the construction scan loop (basic.cpp lines
162-176): skip zero values; throw on a negative value; otherwise fold
the value into max and volume and the index into the bounding box. -/
def scanStep (img : Img) (st : ScanSt) (v : ℤ × ℤ × ℤ) : Except String ScanSt :=
  if img.val v = 0 then Except.ok st
  else if img.val v < 0 then
    Except.error
      ("Cannot have negative values in an image used for rejection sampling!")
  else Except.ok ⟨Max.max st.max (img.val v), st.volume + img.val v,
    Min.min st.b0 v.1, Min.min st.b1 v.2.1, Min.min st.b2 v.2.2,
    Max.max st.t0 v.1, Max.max st.t1 v.2.1, Max.max st.t2 v.2.2⟩

/-- The construction scan over a list of voxels, stopping at the first
negative value. -/
def scanAll (img : Img) : List (ℤ × ℤ × ℤ) → ScanSt → Except String ScanSt
  | [], st => Except.ok st
  | v :: L, st =>
    match scanStep img st v with
    | Except.ok st2 => scanAll img L st2
    | Except.error e => Except.error e

/-- The largest size_t value, the initial lower bounding box entry
(basic.cpp line 160). -/
def sentinel : ℤ := 2 ^ 64 - 1

/-- Initial scan state: max 0, volume 0, bottoms at the sentinel, tops
at 0 (basic.cpp lines 156-160). -/
def scanInit : ScanSt := ⟨0, 0, sentinel, sentinel, sentinel, 0, 0, 0⟩

/-- The working volume the Rejection constructor produces: the adjusted
bounding box, the cropped extents, the recorded maximum, the rescaled
volume, and cropped read access into the input image. -/
structure RejResult where
  b0 : ℤ
  b1 : ℤ
  b2 : ℤ
  t0 : ℤ
  t1 : ℤ
  t2 : ℤ
  s0 : ℕ
  s1 : ℕ
  s2 : ℕ
  max : ℚ
  volume : ℚ
  val : ℤ × ℤ × ℤ → ℚ

/-- Result assembly after a successful scan (basic.cpp lines 181-198):
decrement each non-zero lower bound by one; crop to the box from the
adjusted bottom to the top, both inclusive; rescale volume by the
cropped voxel count.  Modelled from the spec: the Subset adapter and
the scratch copy are declared in adapter/subset.h and image.h, which
are not part of the sources; per section 4.5 of the spec the cropped
working volume spans the bounding box, so its extent per axis is
top - bottom + 1 and its value at v is the input value at v plus
bottom. -/
def rejMk (img : Img) (st : ScanSt) : RejResult :=
  let nb0 := if st.b0 ≠ 0 then st.b0 - 1 else st.b0
  let nb1 := if st.b1 ≠ 0 then st.b1 - 1 else st.b1
  let nb2 := if st.b2 ≠ 0 then st.b2 - 1 else st.b2
  let s0 := (st.t0 - nb0 + 1).toNat
  let s1 := (st.t1 - nb1 + 1).toNat
  let s2 := (st.t2 - nb2 + 1).toNat
  ⟨nb0, nb1, nb2, st.t0, st.t1, st.t2, s0, s1, s2, st.max,
    st.volume * ((s0 : ℚ) * (s1 : ℚ) * (s2 : ℚ)),
    fun v => img.val (v.1 + nb0, v.2.1 + nb1, v.2.2 + nb2)⟩

/-- The Rejection constructor (basic.cpp lines 151-199): scan every
voxel, throwing on a negative value; throw if the maximum is still
zero; otherwise build the cropped working volume. -/
def rejConstruct (img : Img) : Except String RejResult :=
  match scanAll img (voxScanList img) scanInit with
  | Except.error e => Except.error e
  | Except.ok st =>
    if st.max = 0 then
      Except.error ("Cannot use image " ++ "for rejection sampling - image is empty")
    else Except.ok (rejMk img st)

/-- Sum of the positive values of the image. -/
def posSum (img : Img) : ℚ :=
  (((voxScanList img).map img.val).filter (fun x => decide (0 < x))).sum

/-- Running minimum specification for one bounding box coordinate. -/
def MinSpec (img : Img) (proj : (ℤ × ℤ × ℤ) → ℤ) (L : List (ℤ × ℤ × ℤ))
    (old new : ℤ) : Prop :=
  new ≤ old ∧ (∀ v ∈ L, img.val v ≠ 0 → new ≤ proj v)
    ∧ (new = old ∨ ∃ v ∈ L, img.val v ≠ 0 ∧ new = proj v)

/-- Running maximum specification for one bounding box coordinate. -/
def MaxSpec (img : Img) (proj : (ℤ × ℤ × ℤ) → ℤ) (L : List (ℤ × ℤ × ℤ))
    (old new : ℤ) : Prop :=
  old ≤ new ∧ (∀ v ∈ L, img.val v ≠ 0 → proj v ≤ new)
    ∧ (new = old ∨ ∃ v ∈ L, img.val v ≠ 0 ∧ new = proj v)

/-- Running maximum specification for the density values. -/
def MaxValSpec (img : Img) (L : List (ℤ × ℤ × ℤ)) (old new : ℚ) : Prop :=
  old ≤ new ∧ (∀ v ∈ L, img.val v ≠ 0 → img.val v ≤ new)
    ∧ (new = old ∨ ∃ v ∈ L, img.val v ≠ 0 ∧ new = img.val v)

theorem MinSpec_nil (img : Img) (proj : (ℤ × ℤ × ℤ) → ℤ) (old : ℤ) :
    MinSpec img proj [] old old :=
  ⟨le_refl _, by simp, Or.inl rfl⟩

theorem MaxSpec_nil (img : Img) (proj : (ℤ × ℤ × ℤ) → ℤ) (old : ℤ) :
    MaxSpec img proj [] old old :=
  ⟨le_refl _, by simp, Or.inl rfl⟩

theorem MaxValSpec_nil (img : Img) (old : ℚ) : MaxValSpec img [] old old :=
  ⟨le_refl _, by simp, Or.inl rfl⟩

theorem MinSpec_cons_zero {img : Img} {proj : (ℤ × ℤ × ℤ) → ℤ}
    {L : List (ℤ × ℤ × ℤ)} {old new : ℤ} {v : ℤ × ℤ × ℤ}
    (hz : img.val v = 0) (h : MinSpec img proj L old new) :
    MinSpec img proj (v :: L) old new := by
  obtain ⟨h1, h2, h3⟩ := h
  refine ⟨h1, ?_, ?_⟩
  · intro w hw hnz
    rcases List.mem_cons.mp hw with rfl | hwL
    · exact absurd hz hnz
    · exact h2 w hwL hnz
  · rcases h3 with heq | ⟨w, hw, hnz, heq⟩
    · exact Or.inl heq
    · exact Or.inr ⟨w, List.mem_cons_of_mem v hw, hnz, heq⟩

theorem MaxSpec_cons_zero {img : Img} {proj : (ℤ × ℤ × ℤ) → ℤ}
    {L : List (ℤ × ℤ × ℤ)} {old new : ℤ} {v : ℤ × ℤ × ℤ}
    (hz : img.val v = 0) (h : MaxSpec img proj L old new) :
    MaxSpec img proj (v :: L) old new := by
  obtain ⟨h1, h2, h3⟩ := h
  refine ⟨h1, ?_, ?_⟩
  · intro w hw hnz
    rcases List.mem_cons.mp hw with rfl | hwL
    · exact absurd hz hnz
    · exact h2 w hwL hnz
  · rcases h3 with heq | ⟨w, hw, hnz, heq⟩
    · exact Or.inl heq
    · exact Or.inr ⟨w, List.mem_cons_of_mem v hw, hnz, heq⟩

theorem MaxValSpec_cons_zero {img : Img} {L : List (ℤ × ℤ × ℤ)} {old new : ℚ}
    {v : ℤ × ℤ × ℤ} (hz : img.val v = 0) (h : MaxValSpec img L old new) :
    MaxValSpec img (v :: L) old new := by
  obtain ⟨h1, h2, h3⟩ := h
  refine ⟨h1, ?_, ?_⟩
  · intro w hw hnz
    rcases List.mem_cons.mp hw with rfl | hwL
    · exact absurd hz hnz
    · exact h2 w hwL hnz
  · rcases h3 with heq | ⟨w, hw, hnz, heq⟩
    · exact Or.inl heq
    · exact Or.inr ⟨w, List.mem_cons_of_mem v hw, hnz, heq⟩

theorem MinSpec_cons_upd {img : Img} {proj : (ℤ × ℤ × ℤ) → ℤ}
    {L : List (ℤ × ℤ × ℤ)} {old new : ℤ} {v : ℤ × ℤ × ℤ}
    (hnzv : img.val v ≠ 0)
    (h : MinSpec img proj L (Min.min old (proj v)) new) :
    MinSpec img proj (v :: L) old new := by
  obtain ⟨h1, h2, h3⟩ := h
  refine ⟨le_trans h1 (min_le_left _ _), ?_, ?_⟩
  · intro w hw hnz
    rcases List.mem_cons.mp hw with rfl | hwL
    · exact le_trans h1 (min_le_right _ _)
    · exact h2 w hwL hnz
  · rcases h3 with heq | ⟨w, hw, hnz, heq⟩
    · rcases min_choice old (proj v) with hm | hm
      · exact Or.inl (heq.trans hm)
      · exact Or.inr ⟨v, List.mem_cons_self v L, hnzv, heq.trans hm⟩
    · exact Or.inr ⟨w, List.mem_cons_of_mem v hw, hnz, heq⟩

theorem MaxSpec_cons_upd {img : Img} {proj : (ℤ × ℤ × ℤ) → ℤ}
    {L : List (ℤ × ℤ × ℤ)} {old new : ℤ} {v : ℤ × ℤ × ℤ}
    (hnzv : img.val v ≠ 0)
    (h : MaxSpec img proj L (Max.max old (proj v)) new) :
    MaxSpec img proj (v :: L) old new := by
  obtain ⟨h1, h2, h3⟩ := h
  refine ⟨le_trans (le_max_left _ _) h1, ?_, ?_⟩
  · intro w hw hnz
    rcases List.mem_cons.mp hw with rfl | hwL
    · exact le_trans (le_max_right _ _) h1
    · exact h2 w hwL hnz
  · rcases h3 with heq | ⟨w, hw, hnz, heq⟩
    · rcases max_choice old (proj v) with hm | hm
      · exact Or.inl (heq.trans hm)
      · exact Or.inr ⟨v, List.mem_cons_self v L, hnzv, heq.trans hm⟩
    · exact Or.inr ⟨w, List.mem_cons_of_mem v hw, hnz, heq⟩

theorem MaxValSpec_cons_upd {img : Img} {L : List (ℤ × ℤ × ℤ)} {old new : ℚ}
    {v : ℤ × ℤ × ℤ} (hnzv : img.val v ≠ 0)
    (h : MaxValSpec img L (Max.max old (img.val v)) new) :
    MaxValSpec img (v :: L) old new := by
  obtain ⟨h1, h2, h3⟩ := h
  refine ⟨le_trans (le_max_left _ _) h1, ?_, ?_⟩
  · intro w hw hnz
    rcases List.mem_cons.mp hw with rfl | hwL
    · exact le_trans (le_max_right _ _) h1
    · exact h2 w hwL hnz
  · rcases h3 with heq | ⟨w, hw, hnz, heq⟩
    · rcases max_choice old (img.val v) with hm | hm
      · exact Or.inl (heq.trans hm)
      · exact Or.inr ⟨v, List.mem_cons_self v L, hnzv, heq.trans hm⟩
    · exact Or.inr ⟨w, List.mem_cons_of_mem v hw, hnz, heq⟩

theorem scanAll_cons_ok (img : Img) {st st1 : ScanSt} {v : ℤ × ℤ × ℤ}
    {L : List (ℤ × ℤ × ℤ)} (hstep : scanStep img st v = Except.ok st1) :
    scanAll img (v :: L) st = scanAll img L st1 := by
  simp [scanAll, hstep]

theorem scanAll_cons_err (img : Img) {st : ScanSt} {v : ℤ × ℤ × ℤ}
    {L : List (ℤ × ℤ × ℤ)} {e : String}
    (hstep : scanStep img st v = Except.error e) :
    scanAll img (v :: L) st = Except.error e := by
  simp [scanAll, hstep]

/-- The construction scan never fails on a list of non-negative
values, and its result satisfies the running max, sum and bounding
box specifications relative to the start state. -/
theorem scanAll_ok_spec (img : Img) :
    ∀ (L : List (ℤ × ℤ × ℤ)) (st : ScanSt), (∀ v ∈ L, 0 ≤ img.val v) →
      ∃ st2, scanAll img L st = Except.ok st2
        ∧ st2.volume = st.volume
            + ((L.filter (fun v => decide (img.val v ≠ 0))).map img.val).sum
        ∧ MaxValSpec img L st.max st2.max
        ∧ MinSpec img (fun v => v.1) L st.b0 st2.b0
        ∧ MinSpec img (fun v => v.2.1) L st.b1 st2.b1
        ∧ MinSpec img (fun v => v.2.2) L st.b2 st2.b2
        ∧ MaxSpec img (fun v => v.1) L st.t0 st2.t0
        ∧ MaxSpec img (fun v => v.2.1) L st.t1 st2.t1
        ∧ MaxSpec img (fun v => v.2.2) L st.t2 st2.t2 := by
  intro L
  induction L with
  | nil =>
    intro st _
    exact ⟨st, rfl, by simp, MaxValSpec_nil img st.max,
      MinSpec_nil img _ st.b0, MinSpec_nil img _ st.b1, MinSpec_nil img _ st.b2,
      MaxSpec_nil img _ st.t0, MaxSpec_nil img _ st.t1, MaxSpec_nil img _ st.t2⟩
  | cons v L ih =>
    intro st hno
    have hv0 : 0 ≤ img.val v := hno v (List.mem_cons_self v L)
    have htail : ∀ w ∈ L, 0 ≤ img.val w := fun w hw => hno w (List.mem_cons_of_mem v hw)
    by_cases hz : img.val v = 0
    · have hstep : scanStep img st v = Except.ok st := by simp [scanStep, hz]
      obtain ⟨st2, h1, h2, h3, h4, h5, h6, h7, h8, h9⟩ := ih st htail
      refine ⟨st2, (scanAll_cons_ok img hstep).trans h1, ?_,
        MaxValSpec_cons_zero hz h3, MinSpec_cons_zero hz h4,
        MinSpec_cons_zero hz h5, MinSpec_cons_zero hz h6,
        MaxSpec_cons_zero hz h7, MaxSpec_cons_zero hz h8,
        MaxSpec_cons_zero hz h9⟩
      rw [List.filter_cons_of_neg (by simp [hz])]
      exact h2
    · have hneg : ¬ (img.val v < 0) := not_lt.mpr hv0
      have hstep : scanStep img st v =
          Except.ok ⟨Max.max st.max (img.val v), st.volume + img.val v,
            Min.min st.b0 v.1, Min.min st.b1 v.2.1, Min.min st.b2 v.2.2,
            Max.max st.t0 v.1, Max.max st.t1 v.2.1, Max.max st.t2 v.2.2⟩ := by
        simp [scanStep, hz, hneg]
      obtain ⟨st2, h1, h2, h3, h4, h5, h6, h7, h8, h9⟩ :=
        ih ⟨Max.max st.max (img.val v), st.volume + img.val v,
          Min.min st.b0 v.1, Min.min st.b1 v.2.1, Min.min st.b2 v.2.2,
          Max.max st.t0 v.1, Max.max st.t1 v.2.1, Max.max st.t2 v.2.2⟩ htail
      refine ⟨st2, (scanAll_cons_ok img hstep).trans h1, ?_,
        MaxValSpec_cons_upd hz h3, MinSpec_cons_upd hz h4,
        MinSpec_cons_upd hz h5, MinSpec_cons_upd hz h6,
        MaxSpec_cons_upd hz h7, MaxSpec_cons_upd hz h8,
        MaxSpec_cons_upd hz h9⟩
      rw [List.filter_cons_of_pos (by simp [hz]), List.map_cons, List.sum_cons]
      rw [h2]
      show st.volume + img.val v + _ = _
      ring

/-- If some voxel in the list has a negative value, the scan fails
with the negative-value message. -/
theorem scanAll_err (img : Img) :
    ∀ (L : List (ℤ × ℤ × ℤ)) (st : ScanSt), (∃ v ∈ L, img.val v < 0) →
      scanAll img L st = Except.error
        ("Cannot have negative values in an image used for rejection sampling!") := by
  intro L
  induction L with
  | nil =>
    intro st h
    obtain ⟨v, hv, -⟩ := h
    cases hv
  | cons v L ih =>
    intro st h
    by_cases hvneg : img.val v < 0
    · have hz : ¬ (img.val v = 0) := by
        intro h0
        rw [h0] at hvneg
        exact absurd hvneg (by norm_num)
      have hstep : scanStep img st v = Except.error
          ("Cannot have negative values in an image used for rejection sampling!") := by
        simp [scanStep, hz, hvneg]
      exact scanAll_cons_err img hstep
    · obtain ⟨w, hw, hwneg⟩ := h
      have hwL : w ∈ L := by
        rcases List.mem_cons.mp hw with rfl | h2
        · exact absurd hwneg hvneg
        · exact h2
      by_cases hz : img.val v = 0
      · have hstep : scanStep img st v = Except.ok st := by simp [scanStep, hz]
        exact (scanAll_cons_ok img hstep).trans (ih st ⟨w, hwL, hwneg⟩)
      · have hstep : scanStep img st v =
            Except.ok ⟨Max.max st.max (img.val v), st.volume + img.val v,
              Min.min st.b0 v.1, Min.min st.b1 v.2.1, Min.min st.b2 v.2.2,
              Max.max st.t0 v.1, Max.max st.t1 v.2.1, Max.max st.t2 v.2.2⟩ := by
          simp [scanStep, hz, hvneg]
        exact (scanAll_cons_ok img hstep).trans (ih _ ⟨w, hwL, hwneg⟩)

/-- If every voxel in the list has value zero, the scan leaves the
state unchanged. -/
theorem scanAll_zero (img : Img) :
    ∀ (L : List (ℤ × ℤ × ℤ)) (st : ScanSt), (∀ v ∈ L, img.val v = 0) →
      scanAll img L st = Except.ok st := by
  intro L
  induction L with
  | nil => intro st _; rfl
  | cons v L ih =>
    intro st h
    have hstep : scanStep img st v = Except.ok st := by
      simp [scanStep, h v (List.mem_cons_self v L)]
    exact (scanAll_cons_ok img hstep).trans
      (ih st (fun w hw => h w (List.mem_cons_of_mem v hw)))

theorem rejConstruct_errEq {img : Img} {e : String}
    (h : scanAll img (voxScanList img) scanInit = Except.error e) :
    rejConstruct img = Except.error e := by
  simp [rejConstruct, h]

theorem rejConstruct_emptyEq {img : Img} {st : ScanSt}
    (h : scanAll img (voxScanList img) scanInit = Except.ok st)
    (hmax : st.max = 0) :
    rejConstruct img = Except.error
      ("Cannot use image " ++ "for rejection sampling - image is empty") := by
  simp [rejConstruct, h, hmax]

theorem rejConstruct_okEq {img : Img} {st : ScanSt}
    (h : scanAll img (voxScanList img) scanInit = Except.ok st)
    (hmax : ¬ st.max = 0) :
    rejConstruct img = Except.ok (rejMk img st) := by
  simp [rejConstruct, h, hmax]

theorem mem_voxScanList (img : Img) {v : ℤ × ℤ × ℤ} :
    v ∈ voxScanList img ↔ inGrid img v := by
  unfold voxScanList inGrid
  constructor
  · intro h
    rw [List.mem_flatMap] at h
    obtain ⟨k, hk, h⟩ := h
    rw [List.mem_flatMap] at h
    obtain ⟨b, hb, h⟩ := h
    rw [List.mem_map] at h
    obtain ⟨a, ha, rfl⟩ := h
    rw [List.mem_range] at hk hb ha
    refine ⟨Int.natCast_nonneg a, ?_, Int.natCast_nonneg b, ?_,
      Int.natCast_nonneg k, ?_⟩
    · show (a : ℤ) < (img.n0 : ℤ)
      exact_mod_cast ha
    · show (b : ℤ) < (img.n1 : ℤ)
      exact_mod_cast hb
    · show (k : ℤ) < (img.n2 : ℤ)
      exact_mod_cast hk
  · rintro ⟨h1, h2, h3, h4, h5, h6⟩
    rw [List.mem_flatMap]
    refine ⟨v.2.2.toNat, ?_, ?_⟩
    · rw [List.mem_range]
      omega
    · rw [List.mem_flatMap]
      refine ⟨v.2.1.toNat, ?_, ?_⟩
      · rw [List.mem_range]
        omega
      · rw [List.mem_map]
        refine ⟨v.1.toNat, ?_, ?_⟩
        · rw [List.mem_range]
          omega
        · rw [Int.toNat_of_nonneg h1, Int.toNat_of_nonneg h3,
            Int.toNat_of_nonneg h5]

/-- If the running minimum stayed at its initial value but every list
member sits strictly below that value, no non-zero member exists; so a
non-zero member forces the minimum to be attained at one. -/
theorem MinSpec_bottom_ex {img : Img} {proj : (ℤ × ℤ × ℤ) → ℤ}
    {L : List (ℤ × ℤ × ℤ)} {old new : ℤ}
    (h : MinSpec img proj L old new)
    (hub : ∀ v ∈ L, proj v < old)
    (hne : ∃ v ∈ L, img.val v ≠ 0) :
    ∃ v ∈ L, img.val v ≠ 0 ∧ proj v = new := by
  rcases h.2.2 with heq | ⟨w, hw, hnz, heq⟩
  · exfalso
    obtain ⟨v, hv, hnz⟩ := hne
    have h1 : new ≤ proj v := h.2.1 v hv hnz
    have h2 : proj v < old := hub v hv
    rw [heq] at h1
    exact absurd (lt_of_le_of_lt h1 h2) (lt_irrefl old)
  · exact ⟨w, hw, hnz, heq.symm⟩

/-- The running maximum is attained at a non-zero member whenever one
exists and every member sits at or above the initial value. -/
theorem MaxSpec_top_ex {img : Img} {proj : (ℤ × ℤ × ℤ) → ℤ}
    {L : List (ℤ × ℤ × ℤ)} {old new : ℤ}
    (h : MaxSpec img proj L old new)
    (hlb : ∀ v ∈ L, old ≤ proj v)
    (hne : ∃ v ∈ L, img.val v ≠ 0) :
    ∃ v ∈ L, img.val v ≠ 0 ∧ proj v = new := by
  rcases h.2.2 with heq | ⟨w, hw, hnz, heq⟩
  · obtain ⟨v, hv, hnz⟩ := hne
    refine ⟨v, hv, hnz, le_antisymm (h.2.1 v hv hnz) ?_⟩
    rw [heq]
    exact hlb v hv
  · exact ⟨w, hw, hnz, heq.symm⟩

/-- C2: Rejection construction fails with a reported error exactly
when the density image has a voxel with a negative value or no voxel
with a positive value; in the failure cases only an error is produced
and no result object exists, and otherwise construction succeeds with
a result object. -/
theorem rejection_construction_iff (img : Img) :
    ((∃ r, rejConstruct img = Except.ok r) ↔
      ((∀ v ∈ voxScanList img, 0 ≤ img.val v)
        ∧ ∃ v ∈ voxScanList img, 0 < img.val v))
    ∧ ((∃ e, rejConstruct img = Except.error e) ↔
      ((∃ v ∈ voxScanList img, img.val v < 0)
        ∨ ∀ v ∈ voxScanList img, ¬ (0 < img.val v))) := by
  have hok : (∃ r, rejConstruct img = Except.ok r) ↔
      ((∀ v ∈ voxScanList img, 0 ≤ img.val v)
        ∧ ∃ v ∈ voxScanList img, 0 < img.val v) := by
    constructor
    · rintro ⟨r, hr⟩
      by_cases hA : ∀ v ∈ voxScanList img, 0 ≤ img.val v
      · refine ⟨hA, ?_⟩
        by_contra hno
        push_neg at hno
        have hz : ∀ v ∈ voxScanList img, img.val v = 0 := fun v hv =>
          le_antisymm (hno v hv) (hA v hv)
        have hscan := scanAll_zero img (voxScanList img) scanInit hz
        have herr := rejConstruct_emptyEq hscan rfl
        rw [herr] at hr
        cases hr
      · push_neg at hA
        obtain ⟨v, hv, hvneg⟩ := hA
        have hscan := scanAll_err img (voxScanList img) scanInit
          ⟨v, hv, hvneg⟩
        have herr := rejConstruct_errEq hscan
        rw [herr] at hr
        cases hr
    · rintro ⟨hA, v0, hv0, hv0pos⟩
      obtain ⟨st2, hscan, hvol, hmaxS, hrest⟩ :=
        scanAll_ok_spec img (voxScanList img) scanInit hA
      have hmaxpos : 0 < st2.max :=
        lt_of_lt_of_le hv0pos (hmaxS.2.1 v0 hv0 (ne_of_gt hv0pos))
      exact ⟨rejMk img st2, rejConstruct_okEq hscan (ne_of_gt hmaxpos)⟩
  refine ⟨hok, ?_⟩
  constructor
  · rintro ⟨e, he⟩
    by_contra hcon
    push_neg at hcon
    obtain ⟨hnoneg, hsome⟩ := hcon
    obtain ⟨w, hw, hwpos⟩ := hsome
    obtain ⟨r, hr⟩ := hok.mpr ⟨hnoneg, w, hw, hwpos⟩
    rw [hr] at he
    cases he
  · intro h
    rcases hre : rejConstruct img with e | r
    · exact ⟨e, rfl⟩
    · exfalso
      have hcond := hok.mp ⟨r, hre⟩
      rcases h with ⟨v, hv, hvneg⟩ | hall
      · exact absurd (hcond.1 v hv) (not_le.mpr hvneg)
      · obtain ⟨w, hw, hwpos⟩ := hcond.2
        exact hall w hw hwpos

/-- C6: after a successful Rejection construction on a density image
with at least one positive and no negative value, the result is the
input cropped to the bounding box of non-zero voxels with each
positive lower bound decremented by one and the upper bounds
unchanged; its extents span that adjusted box, reading it indexes the
input shifted by the adjusted lower bounds, max is the global maximum
density value, and volume is the sum of the positive density values
times the cropped voxel count. -/
theorem rejection_construction_fields (img : Img)
    (hs0 : (img.n0 : ℤ) ≤ sentinel) (hs1 : (img.n1 : ℤ) ≤ sentinel)
    (hs2 : (img.n2 : ℤ) ≤ sentinel)
    (hA : ∀ v ∈ voxScanList img, 0 ≤ img.val v)
    (hPos : ∃ v ∈ voxScanList img, 0 < img.val v) :
    ∃ (r : RejResult) (m0 m1 m2 M0 M1 M2 : ℤ),
      rejConstruct img = Except.ok r
      ∧ (∃ v ∈ voxScanList img, img.val v ≠ 0 ∧ v.1 = m0)
      ∧ (∀ v ∈ voxScanList img, img.val v ≠ 0 → m0 ≤ v.1)
      ∧ (∃ v ∈ voxScanList img, img.val v ≠ 0 ∧ v.2.1 = m1)
      ∧ (∀ v ∈ voxScanList img, img.val v ≠ 0 → m1 ≤ v.2.1)
      ∧ (∃ v ∈ voxScanList img, img.val v ≠ 0 ∧ v.2.2 = m2)
      ∧ (∀ v ∈ voxScanList img, img.val v ≠ 0 → m2 ≤ v.2.2)
      ∧ (∃ v ∈ voxScanList img, img.val v ≠ 0 ∧ v.1 = M0)
      ∧ (∀ v ∈ voxScanList img, img.val v ≠ 0 → v.1 ≤ M0)
      ∧ (∃ v ∈ voxScanList img, img.val v ≠ 0 ∧ v.2.1 = M1)
      ∧ (∀ v ∈ voxScanList img, img.val v ≠ 0 → v.2.1 ≤ M1)
      ∧ (∃ v ∈ voxScanList img, img.val v ≠ 0 ∧ v.2.2 = M2)
      ∧ (∀ v ∈ voxScanList img, img.val v ≠ 0 → v.2.2 ≤ M2)
      ∧ r.b0 = (if 0 < m0 then m0 - 1 else m0)
      ∧ r.b1 = (if 0 < m1 then m1 - 1 else m1)
      ∧ r.b2 = (if 0 < m2 then m2 - 1 else m2)
      ∧ r.t0 = M0 ∧ r.t1 = M1 ∧ r.t2 = M2
      ∧ r.s0 = (r.t0 - r.b0 + 1).toNat
      ∧ r.s1 = (r.t1 - r.b1 + 1).toNat
      ∧ r.s2 = (r.t2 - r.b2 + 1).toNat
      ∧ (∀ w, r.val w = img.val (w.1 + r.b0, w.2.1 + r.b1, w.2.2 + r.b2))
      ∧ (∃ v ∈ voxScanList img, img.val v = r.max)
      ∧ (∀ v ∈ voxScanList img, img.val v ≤ r.max)
      ∧ 0 < r.max
      ∧ r.volume = posSum img * ((r.s0 : ℚ) * (r.s1 : ℚ) * (r.s2 : ℚ)) := by
  obtain ⟨v0, hv0L, hv0pos⟩ := hPos
  have hv0nz : img.val v0 ≠ 0 := ne_of_gt hv0pos
  obtain ⟨st2, hscan, hvol, hmaxS, hb0S, hb1S, hb2S, ht0S, ht1S, ht2S⟩ :=
    scanAll_ok_spec img (voxScanList img) scanInit hA
  have hmaxpos : 0 < st2.max :=
    lt_of_lt_of_le hv0pos (hmaxS.2.1 v0 hv0L hv0nz)
  have hok : rejConstruct img = Except.ok (rejMk img st2) :=
    rejConstruct_okEq hscan (ne_of_gt hmaxpos)
  have hmem : ∀ v ∈ voxScanList img, inGrid img v := fun v hv =>
    (mem_voxScanList img).mp hv
  have hne : ∃ v ∈ voxScanList img, img.val v ≠ 0 := ⟨v0, hv0L, hv0nz⟩
  -- the bottoms are attained: members sit strictly below the sentinel
  have hm0ex := MinSpec_bottom_ex hb0S
    (fun v hv => by
      have h := (hmem v hv).2.1
      show v.1 < scanInit.b0
      show v.1 < sentinel
      linarith) hne
  have hm1ex := MinSpec_bottom_ex hb1S
    (fun v hv => by
      have h := (hmem v hv).2.2.2.1
      show v.2.1 < scanInit.b1
      show v.2.1 < sentinel
      linarith) hne
  have hm2ex := MinSpec_bottom_ex hb2S
    (fun v hv => by
      have h := (hmem v hv).2.2.2.2.2
      show v.2.2 < scanInit.b2
      show v.2.2 < sentinel
      linarith) hne
  -- the tops are attained: members sit at or above zero
  have hM0ex := MaxSpec_top_ex ht0S
    (fun v hv => by
      have h := (hmem v hv).1
      show scanInit.t0 ≤ v.1
      show (0 : ℤ) ≤ v.1
      exact h) hne
  have hM1ex := MaxSpec_top_ex ht1S
    (fun v hv => by
      have h := (hmem v hv).2.2.1
      show scanInit.t1 ≤ v.2.1
      show (0 : ℤ) ≤ v.2.1
      exact h) hne
  have hM2ex := MaxSpec_top_ex ht2S
    (fun v hv => by
      have h := (hmem v hv).2.2.2.2.1
      show scanInit.t2 ≤ v.2.2
      show (0 : ℤ) ≤ v.2.2
      exact h) hne
  -- the bottoms are non-negative
  have hm0nn : 0 ≤ st2.b0 := by
    obtain ⟨w, hw, -, hweq⟩ := hm0ex
    rw [← hweq]
    exact (hmem w hw).1
  have hm1nn : 0 ≤ st2.b1 := by
    obtain ⟨w, hw, -, hweq⟩ := hm1ex
    rw [← hweq]
    exact (hmem w hw).2.2.1
  have hm2nn : 0 ≤ st2.b2 := by
    obtain ⟨w, hw, -, hweq⟩ := hm2ex
    rw [← hweq]
    exact (hmem w hw).2.2.2.2.1
  -- the decrement condition restated with strict positivity
  have hdec : ∀ x : ℤ, 0 ≤ x →
      (if x ≠ 0 then x - 1 else x) = (if 0 < x then x - 1 else x) := by
    intro x hx
    by_cases hc : x = 0
    · rw [if_neg (not_not.mpr hc), if_neg (by omega)]
    · rw [if_pos hc, if_pos (by omega)]
  -- the maximum is attained
  have hmaxex : ∃ v ∈ voxScanList img, img.val v = st2.max := by
    rcases hmaxS.2.2 with heq | ⟨w, hw, hnz, heq⟩
    · exfalso
      have h0 : scanInit.max = 0 := rfl
      rw [h0] at heq
      exact absurd heq (ne_of_gt hmaxpos)
    · exact ⟨w, hw, heq.symm⟩
  have hmaxall : ∀ v ∈ voxScanList img, img.val v ≤ st2.max := by
    intro v hv
    by_cases hz : img.val v = 0
    · rw [hz]
      exact le_of_lt hmaxpos
    · exact hmaxS.2.1 v hv hz
  -- the volume
  have hps : posSum img =
      (((voxScanList img).filter (fun v => decide (img.val v ≠ 0))).map img.val).sum := by
    unfold posSum
    rw [List.filter_map]
    congr 1
    congr 1
    apply List.filter_congr
    intro v hv
    have h0 := hA v hv
    simp only [Function.comp]
    exact decide_eq_decide.mpr
      ⟨fun h => ne_of_gt h, fun h => lt_of_le_of_ne h0 (Ne.symm h)⟩
  have hvolq : st2.volume = posSum img := by
    rw [hvol, hps]
    show (0 : ℚ) + _ = _
    rw [zero_add]
  refine ⟨rejMk img st2, st2.b0, st2.b1, st2.b2, st2.t0, st2.t1, st2.t2,
    hok, hm0ex, hb0S.2.1, hm1ex, hb1S.2.1, hm2ex, hb2S.2.1,
    hM0ex, ht0S.2.1, hM1ex, ht1S.2.1, hM2ex, ht2S.2.1,
    hdec st2.b0 hm0nn, hdec st2.b1 hm1nn, hdec st2.b2 hm2nn,
    rfl, rfl, rfl, rfl, rfl, rfl, fun w => rfl, hmaxex, hmaxall, hmaxpos, ?_⟩
  show st2.volume * _ = _
  rw [hvolq]
  rfl

/-- Concrete one-voxel density image. -/
def mC6 : Img := ⟨1, 1, 1, fun _ => 1⟩

theorem rejection_construction_fields_witness :
    ((mC6.n0 : ℤ) ≤ sentinel) ∧ ((mC6.n1 : ℤ) ≤ sentinel)
    ∧ ((mC6.n2 : ℤ) ≤ sentinel)
    ∧ (∀ v ∈ voxScanList mC6, 0 ≤ mC6.val v)
    ∧ (∃ v ∈ voxScanList mC6, 0 < mC6.val v)
    ∧ ∃ (r : RejResult) (m0 m1 m2 M0 M1 M2 : ℤ),
      rejConstruct mC6 = Except.ok r
      ∧ (∃ v ∈ voxScanList mC6, mC6.val v ≠ 0 ∧ v.1 = m0)
      ∧ (∀ v ∈ voxScanList mC6, mC6.val v ≠ 0 → m0 ≤ v.1)
      ∧ (∃ v ∈ voxScanList mC6, mC6.val v ≠ 0 ∧ v.2.1 = m1)
      ∧ (∀ v ∈ voxScanList mC6, mC6.val v ≠ 0 → m1 ≤ v.2.1)
      ∧ (∃ v ∈ voxScanList mC6, mC6.val v ≠ 0 ∧ v.2.2 = m2)
      ∧ (∀ v ∈ voxScanList mC6, mC6.val v ≠ 0 → m2 ≤ v.2.2)
      ∧ (∃ v ∈ voxScanList mC6, mC6.val v ≠ 0 ∧ v.1 = M0)
      ∧ (∀ v ∈ voxScanList mC6, mC6.val v ≠ 0 → v.1 ≤ M0)
      ∧ (∃ v ∈ voxScanList mC6, mC6.val v ≠ 0 ∧ v.2.1 = M1)
      ∧ (∀ v ∈ voxScanList mC6, mC6.val v ≠ 0 → v.2.1 ≤ M1)
      ∧ (∃ v ∈ voxScanList mC6, mC6.val v ≠ 0 ∧ v.2.2 = M2)
      ∧ (∀ v ∈ voxScanList mC6, mC6.val v ≠ 0 → v.2.2 ≤ M2)
      ∧ r.b0 = (if 0 < m0 then m0 - 1 else m0)
      ∧ r.b1 = (if 0 < m1 then m1 - 1 else m1)
      ∧ r.b2 = (if 0 < m2 then m2 - 1 else m2)
      ∧ r.t0 = M0 ∧ r.t1 = M1 ∧ r.t2 = M2
      ∧ r.s0 = (r.t0 - r.b0 + 1).toNat
      ∧ r.s1 = (r.t1 - r.b1 + 1).toNat
      ∧ r.s2 = (r.t2 - r.b2 + 1).toNat
      ∧ (∀ w, r.val w = mC6.val (w.1 + r.b0, w.2.1 + r.b1, w.2.2 + r.b2))
      ∧ (∃ v ∈ voxScanList mC6, mC6.val v = r.max)
      ∧ (∀ v ∈ voxScanList mC6, mC6.val v ≤ r.max)
      ∧ 0 < r.max
      ∧ r.volume = posSum mC6 * ((r.s0 : ℚ) * (r.s1 : ℚ) * (r.s2 : ℚ)) :=
  ⟨by decide, by decide, by decide, by decide, by decide,
    rejection_construction_fields mC6 (by decide) (by decide) (by decide)
      (by decide) (by decide)⟩

/- ----------------------------------------------------------------
   SeedMask (basic.cpp lines 53-65)
   ---------------------------------------------------------------- -/

/-- Acceptance condition of the SeedMask sampling loop: the loop
repeats while the mask value at the drawn voxel is zero (basic.cpp
line 60), so a draw is accepted when the value is non-zero. -/
def smAccept (m : Img) (dv : ℕ → ℤ × ℤ × ℤ) (k : ℕ) : Prop :=
  m.val (dv k) ≠ 0

instance (m : Img) (dv : ℕ → ℤ × ℤ × ℤ) : DecidablePred (smAccept m dv) :=
  fun k => inferInstanceAs (Decidable (m.val (dv k) ≠ 0))

/-- Index of the first accepted draw of the SeedMask loop, if the loop
terminates within the given fuel. -/
def smLoopIdx (m : Img) (dv : ℕ → ℤ × ℤ × ℤ) (F : ℕ) : Option ℕ :=
  firstHit (smAccept m dv) F 0

/-- The point built from an accepted voxel: per axis the voxel index
plus a uniform draw minus one half, then the coordinate transform
(basic.cpp lines 62-63; the identical construction appears at lines
100-101 and 229-230). -/
def subVoxelPoint (T : ℚ × ℚ × ℚ → ℚ × ℚ × ℚ) (v : ℤ × ℤ × ℤ)
    (off : ℚ × ℚ × ℚ) : ℚ × ℚ × ℚ :=
  T ((v.1 : ℚ) + (off.1 - 1 / 2), (v.2.1 : ℚ) + (off.2.1 - 1 / 2),
    (v.2.2 : ℚ) + (off.2.2 - 1 / 2))

/-- SeedMask get_seed: repeat drawing voxels until one has non-zero
mask value, then emit the jittered transformed point. -/
def smGetSeed (m : Img) (T : ℚ × ℚ × ℚ → ℚ × ℚ × ℚ) (dv : ℕ → ℤ × ℤ × ℤ)
    (off : ℚ × ℚ × ℚ) (F : ℕ) : Option (ℚ × ℚ × ℚ) :=
  (smLoopIdx m dv F).map (fun K => subVoxelPoint T (dv K) off)

/-- A voxel index plus an offset in [0,1) minus one half rounds back
to the voxel index. -/
theorem round_jitter (v : ℤ) (o : ℚ) (h0 : 0 ≤ o) (h1 : o < 1) :
    round ((v : ℚ) + (o - 1 / 2)) = v := by
  rw [round_eq]
  have he : (v : ℚ) + (o - 1 / 2) + 1 / 2 = (v : ℚ) + o := by ring
  rw [he, Int.floor_int_add]
  have hz : ⌊o⌋ = 0 := by
    rw [Int.floor_eq_zero_iff]
    exact ⟨h0, h1⟩
  rw [hz, add_zero]

/-- Rounding the inverse-transformed jittered point recovers the
voxel, when each offset lies in [0,1). -/
theorem roundP_subVoxelPoint {T Tinv : ℚ × ℚ × ℚ → ℚ × ℚ × ℚ}
    (hT : ∀ q, Tinv (T q) = q) (v : ℤ × ℤ × ℤ) {off : ℚ × ℚ × ℚ}
    (ho1 : 0 ≤ off.1) (ho2 : off.1 < 1) (ho3 : 0 ≤ off.2.1)
    (ho4 : off.2.1 < 1) (ho5 : 0 ≤ off.2.2) (ho6 : off.2.2 < 1) :
    roundP (Tinv (subVoxelPoint T v off)) = v := by
  unfold subVoxelPoint
  rw [hT]
  show (round ((v.1 : ℚ) + (off.1 - 1 / 2)),
    round ((v.2.1 : ℚ) + (off.2.1 - 1 / 2)),
    round ((v.2.2 : ℚ) + (off.2.2 - 1 / 2))) = v
  rw [round_jitter _ _ ho1 ho2, round_jitter _ _ ho3 ho4,
    round_jitter _ _ ho5 ho6]

/-- C7: when the SeedMask sampling loop terminates, get_seed returns a
point (true); the accepted voxel is a grid voxel with non-zero mask
value, every voxel drawn before it had zero mask value, the point is
the coordinate transform of the voxel index plus per-axis offsets in
[-1/2, 1/2), and the voxel obtained by rounding the
inverse-transformed point has non-zero mask value. -/
theorem seed_mask_in_mask (m : Img) (T Tinv : ℚ × ℚ × ℚ → ℚ × ℚ × ℚ)
    (dv : ℕ → ℤ × ℤ × ℤ) (off : ℚ × ℚ × ℚ) (F K : ℕ)
    (hT : ∀ q, Tinv (T q) = q)
    (hK : smLoopIdx m dv F = some K)
    (ho1 : 0 ≤ off.1) (ho2 : off.1 < 1)
    (ho3 : 0 ≤ off.2.1) (ho4 : off.2.1 < 1)
    (ho5 : 0 ≤ off.2.2) (ho6 : off.2.2 < 1)
    (hdv : ∀ k, inGrid m (dv k)) :
    smGetSeed m T dv off F = some (subVoxelPoint T (dv K) off)
    ∧ m.val (dv K) ≠ 0
    ∧ inGrid m (dv K)
    ∧ (∀ j, j < K → m.val (dv j) = 0)
    ∧ roundP (Tinv (subVoxelPoint T (dv K) off)) = dv K
    ∧ m.val (roundP (Tinv (subVoxelPoint T (dv K) off))) ≠ 0 := by
  obtain ⟨-, hacc, hmin⟩ := firstHit_spec (smAccept m dv) F 0 K hK
  have hround : roundP (Tinv (subVoxelPoint T (dv K) off)) = dv K :=
    roundP_subVoxelPoint hT (dv K) ho1 ho2 ho3 ho4 ho5 ho6
  refine ⟨?_, hacc, hdv K, ?_, hround, ?_⟩
  · unfold smGetSeed
    rw [hK]
    rfl
  · intro j hj
    have := hmin j (Nat.zero_le j) hj
    unfold smAccept at this
    exact not_not.mp this
  · rw [hround]
    exact hacc

/-- Concrete one-voxel mask. -/
def mC7 : Img := ⟨1, 1, 1, fun _ => 1⟩

theorem seed_mask_in_mask_witness :
    smLoopIdx mC7 (fun _ => (0, 0, 0)) 1 = some 0
    ∧ ((0 : ℚ) ≤ (1 / 2 : ℚ) ∧ ((1 / 2 : ℚ)) < 1)
    ∧ (smGetSeed mC7 (fun q => q) (fun _ => (0, 0, 0)) (1 / 2, 1 / 2, 1 / 2) 1
        = some (subVoxelPoint (fun q => q) (0, 0, 0) (1 / 2, 1 / 2, 1 / 2))
      ∧ mC7.val (0, 0, 0) ≠ 0
      ∧ inGrid mC7 (0, 0, 0)
      ∧ (∀ j, j < 0 → mC7.val ((fun _ => ((0 : ℤ), (0 : ℤ), (0 : ℤ))) j) = 0)
      ∧ roundP ((fun q => q)
          (subVoxelPoint (fun q => q) (0, 0, 0) (1 / 2, 1 / 2, 1 / 2))) = (0, 0, 0)
      ∧ mC7.val (roundP ((fun q => q)
          (subVoxelPoint (fun q => q) (0, 0, 0) (1 / 2, 1 / 2, 1 / 2)))) ≠ 0) :=
  ⟨by decide, ⟨by norm_num, by norm_num⟩,
    seed_mask_in_mask mC7 (fun q => q) (fun q => q) (fun _ => (0, 0, 0))
      (1 / 2, 1 / 2, 1 / 2) 1 0 (fun q => rfl) (by decide)
      (by norm_num) (by norm_num) (by norm_num) (by norm_num)
      (by norm_num) (by norm_num) (fun _ => (by decide : inGrid mC7 (0, 0, 0)))⟩

/- ----------------------------------------------------------------
   Rejection get_seed (basic.cpp lines 203-233)
   ---------------------------------------------------------------- -/

/-- Acceptance condition of the Rejection sampling loop: the loop
repeats while the density value at the drawn voxel is strictly below
the selector, a uniform draw times max (basic.cpp lines 227-228); a
candidate is accepted when the value is at least the selector. -/
def rejAccept (img : Img) (mx : ℚ) (dv : ℕ → ℤ × ℤ × ℤ) (du : ℕ → ℚ)
    (k : ℕ) : Prop :=
  ¬ (img.val (dv k) < du k * mx)

instance (img : Img) (mx : ℚ) (dv : ℕ → ℤ × ℤ × ℤ) (du : ℕ → ℚ) :
    DecidablePred (rejAccept img mx dv du) := fun k =>
  inferInstanceAs (Decidable (¬ (img.val (dv k) < du k * mx)))

/-- Index of the first accepted draw of the Rejection loop, if it
terminates within the fuel. -/
def rejLoopIdx (img : Img) (mx : ℚ) (dv : ℕ → ℤ × ℤ × ℤ) (du : ℕ → ℚ)
    (F : ℕ) : Option ℕ :=
  firstHit (rejAccept img mx dv du) F 0

/-- Rejection get_seed: repeat drawing voxels and selectors until the
voxel value reaches the selector, then emit the jittered transformed
point (basic.cpp lines 221-230). -/
def rejGetSeed (img : Img) (mx : ℚ) (T : ℚ × ℚ × ℚ → ℚ × ℚ × ℚ)
    (dv : ℕ → ℤ × ℤ × ℤ) (du : ℕ → ℚ) (off : ℚ × ℚ × ℚ) (F : ℕ) :
    Option (ℚ × ℚ × ℚ) :=
  (rejLoopIdx img mx dv du F).map (fun K => subVoxelPoint T (dv K) off)

/-- The cropped working volume of a Rejection result viewed as an
image over its own grid. -/
def rejImg (r : RejResult) : Img := ⟨r.s0, r.s1, r.s2, r.val⟩

/-- Concrete masks on which the SeedMask and Rejection loops never
accept: the drawn voxel always has zero (respectively
below-threshold) value. -/
def mC9s : Img := ⟨1, 1, 2, fun v => if v = (0, 0, 0) then 1 else 0⟩

def mC9r : Img := ⟨1, 1, 2, fun v => if v = (0, 0, 1) then 1 else 0⟩

/-- C9: the accept/reject loops of Sphere, SeedMask and Rejection
enforce no iteration bound: for each there is an infinite stream of
in-range draws on which no candidate is ever accepted, so the loop
returns nothing for every amount of fuel. -/
theorem rejection_loops_unbounded :
    (∃ u : ℕ → ℚ, (∀ n, 0 ≤ u n ∧ u n < 1)
      ∧ (∀ k, ¬ sphereAccept u k) ∧ ∀ F, sphereLoopIdx u F = none)
    ∧ (∃ (m : Img) (dv : ℕ → ℤ × ℤ × ℤ),
        (0 < m.n0 ∧ 0 < m.n1 ∧ 0 < m.n2)
        ∧ (∃ v, inGrid m v ∧ m.val v ≠ 0)
        ∧ (∀ k, inGrid m (dv k))
        ∧ (∀ k, ¬ smAccept m dv k) ∧ ∀ F, smLoopIdx m dv F = none)
    ∧ (∃ (img : Img) (mx : ℚ) (dv : ℕ → ℤ × ℤ × ℤ) (du : ℕ → ℚ),
        0 < mx ∧ (∀ n, 0 ≤ du n ∧ du n < 1)
        ∧ (∀ v, 0 ≤ img.val v) ∧ (∃ v, inGrid img v ∧ 0 < img.val v)
        ∧ (∀ k, inGrid img (dv k))
        ∧ (∀ k, ¬ rejAccept img mx dv du k)
        ∧ ∀ F, rejLoopIdx img mx dv du F = none) := by
  have hsph : ∀ k, ¬ sphereAccept (fun _ => (9 / 10 : ℚ)) k := by
    intro k
    unfold sphereAccept sphereCand sqnormQ
    norm_num
  have hsm : ∀ k, ¬ smAccept mC9s (fun _ => ((0 : ℤ), (0 : ℤ), (1 : ℤ))) k := by
    intro k
    show ¬ mC9s.val (0, 0, 1) ≠ 0
    decide
  have hrej : ∀ k, ¬ rejAccept mC9r 1 (fun _ => ((0 : ℤ), (0 : ℤ), (0 : ℤ)))
      (fun _ => (1 / 2 : ℚ)) k := by
    intro k
    unfold rejAccept
    rw [not_not]
    show mC9r.val (0, 0, 0) < 1 / 2 * 1
    show (if ((0 : ℤ), (0 : ℤ), (0 : ℤ)) = ((0 : ℤ), (0 : ℤ), (1 : ℤ))
      then (1 : ℚ) else 0) < 1 / 2 * 1
    rw [if_neg (by decide)]
    norm_num
  have hsmg : inGrid mC9s (0, 0, 1) := by decide
  have hrjg : inGrid mC9r (0, 0, 0) := by decide
  have hnn : ∀ v, 0 ≤ mC9r.val v := by
    intro v
    show (0 : ℚ) ≤ if v = (0, 0, 1) then 1 else 0
    by_cases h : v = ((0 : ℤ), (0 : ℤ), (1 : ℤ))
    · rw [if_pos h]
      norm_num
    · rw [if_neg h]
  exact ⟨⟨fun _ => 9 / 10, fun n => ⟨by norm_num, by norm_num⟩, hsph,
      fun F => firstHit_none _ hsph F 0⟩,
    ⟨mC9s, fun _ => (0, 0, 1), ⟨by decide, by decide, by decide⟩,
      ⟨(0, 0, 0), by decide, by decide⟩, fun _ => hsmg, hsm,
      fun F => firstHit_none _ hsm F 0⟩,
    ⟨mC9r, 1, fun _ => (0, 0, 0), fun _ => 1 / 2, by norm_num,
      fun n => ⟨by norm_num, by norm_num⟩, hnn,
      ⟨(0, 0, 1), by decide, by decide⟩, fun _ => hrjg, hrej,
      fun F => firstHit_none _ hrej F 0⟩⟩

/-- Pin the value of a running minimum: it equals any value that is
attained by a non-zero member and bounds all non-zero members from
below. -/
theorem MinSpec_value {img : Img} {proj : (ℤ × ℤ × ℤ) → ℤ}
    {L : List (ℤ × ℤ × ℤ)} {old new : ℤ}
    (h : MinSpec img proj L old new)
    (hub : ∀ v ∈ L, proj v < old) {c : ℤ}
    (hc : ∃ v ∈ L, img.val v ≠ 0 ∧ proj v = c)
    (hlb : ∀ v ∈ L, img.val v ≠ 0 → c ≤ proj v) : new = c := by
  obtain ⟨v, hv, hnz, hvc⟩ := hc
  have h1 : new ≤ c := hvc ▸ h.2.1 v hv hnz
  obtain ⟨w, hw, hwnz, hweq⟩ := MinSpec_bottom_ex h hub ⟨v, hv, hnz⟩
  have h2 : c ≤ new := hweq ▸ hlb w hw hwnz
  omega

/-- Pin the value of a running maximum: it equals any value that is
attained by a non-zero member and bounds all non-zero members from
above. -/
theorem MaxSpec_value {img : Img} {proj : (ℤ × ℤ × ℤ) → ℤ}
    {L : List (ℤ × ℤ × ℤ)} {old new : ℤ}
    (h : MaxSpec img proj L old new)
    (hlb0 : ∀ v ∈ L, old ≤ proj v) {c : ℤ}
    (hc : ∃ v ∈ L, img.val v ≠ 0 ∧ proj v = c)
    (hub : ∀ v ∈ L, img.val v ≠ 0 → proj v ≤ c) : new = c := by
  obtain ⟨v, hv, hnz, hvc⟩ := hc
  have h1 : c ≤ new := hvc ▸ h.2.1 v hv hnz
  obtain ⟨w, hw, hwnz, hweq⟩ := MaxSpec_top_ex h hlb0 ⟨v, hv, hnz⟩
  have h2 : new ≤ c := hweq ▸ hub w hw hwnz
  omega

/-- A 1 by 1 by 3 density image whose first voxel along axis 2 has
value zero and whose other two voxels are positive; after
construction the zero voxel lies inside the cropped working volume
because the lower bound along axis 2 is decremented. -/
def imgC10 : Img :=
  ⟨1, 1, 3, fun v => if v = (0, 0, 1) then 2 else if v = (0, 0, 2) then 1 else 0⟩

/-- C10: the Rejection acceptance test is non-strict (accept exactly
when the voxel value is at least the selector), the selector u times
max stays in [0, max) for u in [0, 1) and is exactly 0 for u = 0, so a
draw with selector 0 accepts a non-negative voxel of any value; and on
a concrete density image whose cropped working volume contains a
zero-density voxel, a seed is produced inside that zero-density
voxel. -/
theorem rejection_zero_density_seed :
    (∀ (img : Img) (mx : ℚ) (dv : ℕ → ℤ × ℤ × ℤ) (du : ℕ → ℚ) (k : ℕ),
        rejAccept img mx dv du k ↔ du k * mx ≤ img.val (dv k))
    ∧ (∀ mx u : ℚ, 0 < mx → 0 ≤ u → u < 1 →
        0 ≤ u * mx ∧ u * mx < mx ∧ (u = 0 → u * mx = 0))
    ∧ (∀ (img : Img) (mx : ℚ) (dv : ℕ → ℤ × ℤ × ℤ) (du : ℕ → ℚ) (k : ℕ),
        du k = 0 → 0 ≤ img.val (dv k) → rejAccept img mx dv du k)
    ∧ ∃ (r : RejResult) (K : ℕ),
        rejConstruct imgC10 = Except.ok r
        ∧ imgC10.val (0, 0, 0) = 0
        ∧ inGrid (rejImg r) (0, 0, 0)
        ∧ r.val (0, 0, 0) = 0
        ∧ rejLoopIdx (rejImg r) r.max (fun _ => (0, 0, 0)) (fun _ => 0) 1 = some K
        ∧ rejGetSeed (rejImg r) r.max (fun q => q) (fun _ => (0, 0, 0))
            (fun _ => 0) (1 / 2, 1 / 2, 1 / 2) 1
          = some (subVoxelPoint (fun q => q) (0, 0, 0) (1 / 2, 1 / 2, 1 / 2))
        ∧ roundP (subVoxelPoint (fun q => q) (0, 0, 0) (1 / 2, 1 / 2, 1 / 2))
          = (0, 0, 0) := by
  refine ⟨?_, ?_, ?_, ?_⟩
  · intro img mx dv du k
    unfold rejAccept
    exact not_lt
  · intro mx u hmx hu0 hu1
    refine ⟨mul_nonneg hu0 (le_of_lt hmx), ?_, fun hu => by rw [hu, zero_mul]⟩
    calc u * mx < 1 * mx := by
          apply mul_lt_mul_of_pos_right hu1 hmx
      _ = mx := one_mul mx
  · intro img mx dv du k hdu hval
    unfold rejAccept
    rw [hdu, zero_mul]
    exact not_lt.mpr hval
  · -- the concrete construction
    have hA : ∀ v ∈ voxScanList imgC10, 0 ≤ imgC10.val v := by decide
    obtain ⟨st2, hscan, hvol, hmaxS, hb0S, hb1S, hb2S, ht0S, ht1S, ht2S⟩ :=
      scanAll_ok_spec imgC10 (voxScanList imgC10) scanInit hA
    have hmaxpos : 0 < st2.max := by
      have h1 : imgC10.val (0, 0, 1) ≤ st2.max :=
        hmaxS.2.1 (0, 0, 1) (by decide) (by decide)
      have h2 : (0 : ℚ) < imgC10.val (0, 0, 1) := by
        show (0 : ℚ) < if ((0 : ℤ), (0 : ℤ), (1 : ℤ)) = (0, 0, 1) then 2
          else if ((0 : ℤ), (0 : ℤ), (1 : ℤ)) = (0, 0, 2) then 1 else 0
        rw [if_pos rfl]
        norm_num
      exact lt_of_lt_of_le h2 h1
    have hok : rejConstruct imgC10 = Except.ok (rejMk imgC10 st2) :=
      rejConstruct_okEq hscan (ne_of_gt hmaxpos)
    -- pin the bounding box fields
    have hb0v : st2.b0 = 0 := MinSpec_value hb0S (by decide)
      ⟨(0, 0, 1), by decide, by decide, rfl⟩ (by decide)
    have hb1v : st2.b1 = 0 := MinSpec_value hb1S (by decide)
      ⟨(0, 0, 1), by decide, by decide, rfl⟩ (by decide)
    have hb2v : st2.b2 = 1 := MinSpec_value hb2S (by decide)
      ⟨(0, 0, 1), by decide, by decide, rfl⟩ (by decide)
    have ht0v : st2.t0 = 0 := MaxSpec_value ht0S (by decide)
      ⟨(0, 0, 1), by decide, by decide, rfl⟩ (by decide)
    have ht1v : st2.t1 = 0 := MaxSpec_value ht1S (by decide)
      ⟨(0, 0, 1), by decide, by decide, rfl⟩ (by decide)
    have ht2v : st2.t2 = 2 := MaxSpec_value ht2S (by decide)
      ⟨(0, 0, 2), by decide, by decide, rfl⟩ (by decide)
    -- the adjusted lower bounds
    have hnb0 : (if st2.b0 ≠ 0 then st2.b0 - 1 else st2.b0) = 0 := by
      rw [hb0v]
      norm_num
    have hnb1 : (if st2.b1 ≠ 0 then st2.b1 - 1 else st2.b1) = 0 := by
      rw [hb1v]
      norm_num
    have hnb2 : (if st2.b2 ≠ 0 then st2.b2 - 1 else st2.b2) = 0 := by
      rw [hb2v]
      norm_num
    -- the cropped extents
    have hs0 : (rejMk imgC10 st2).s0 = 1 := by
      show (st2.t0 - (if st2.b0 ≠ 0 then st2.b0 - 1 else st2.b0) + 1).toNat = 1
      rw [ht0v, hnb0]
      rfl
    have hs1 : (rejMk imgC10 st2).s1 = 1 := by
      show (st2.t1 - (if st2.b1 ≠ 0 then st2.b1 - 1 else st2.b1) + 1).toNat = 1
      rw [ht1v, hnb1]
      rfl
    have hs2 : (rejMk imgC10 st2).s2 = 3 := by
      show (st2.t2 - (if st2.b2 ≠ 0 then st2.b2 - 1 else st2.b2) + 1).toNat = 3
      rw [ht2v, hnb2]
      rfl
    -- the zero-density voxel of the cropped volume
    have hval00 : (rejMk imgC10 st2).val (0, 0, 0) = 0 := by
      show imgC10.val ((0 : ℤ) + (if st2.b0 ≠ 0 then st2.b0 - 1 else st2.b0),
        (0 : ℤ) + (if st2.b1 ≠ 0 then st2.b1 - 1 else st2.b1),
        (0 : ℤ) + (if st2.b2 ≠ 0 then st2.b2 - 1 else st2.b2)) = 0
      rw [hnb0, hnb1, hnb2]
      decide
    have hgrid : inGrid (rejImg (rejMk imgC10 st2)) (0, 0, 0) := by
      refine ⟨le_refl 0, ?_, le_refl 0, ?_, le_refl 0, ?_⟩
      · show (0 : ℤ) < ((rejMk imgC10 st2).s0 : ℤ)
        rw [hs0]
        norm_num
      · show (0 : ℤ) < ((rejMk imgC10 st2).s1 : ℤ)
        rw [hs1]
        norm_num
      · show (0 : ℤ) < ((rejMk imgC10 st2).s2 : ℤ)
        rw [hs2]
        norm_num
    -- the first draw is accepted: selector is exactly zero
    have hacc : rejAccept (rejImg (rejMk imgC10 st2)) (rejMk imgC10 st2).max
        (fun _ => (0, 0, 0)) (fun _ => 0) 0 := by
      unfold rejAccept
      show ¬ ((rejMk imgC10 st2).val (0, 0, 0) < 0 * (rejMk imgC10 st2).max)
      rw [zero_mul, hval00]
      exact lt_irrefl 0
    have hloop : rejLoopIdx (rejImg (rejMk imgC10 st2)) (rejMk imgC10 st2).max
        (fun _ => (0, 0, 0)) (fun _ => 0) 1 = some 0 := by
      unfold rejLoopIdx firstHit
      rw [if_pos hacc]
    refine ⟨rejMk imgC10 st2, 0, hok, by decide, hgrid, hval00, hloop, ?_, ?_⟩
    · unfold rejGetSeed
      rw [hloop]
      rfl
    · exact @roundP_subVoxelPoint (fun q => q) (fun q => q) (fun q => rfl)
        (0, 0, 0) (1 / 2, 1 / 2, 1 / 2)
        (by norm_num) (by norm_num) (by norm_num) (by norm_num)
        (by norm_num) (by norm_num)
